import Mathlib

/-!
Verification development for the CPSC-3500 networked file system core
(`FileSys.cpp` / `FileSys.h` over the block device of `Disk.cpp`).

The on-disk state is modelled at byte level: the disk is a list of
`NUM_BLOCKS` blocks, each a list of `BLOCK_SIZE` bytes (naturals < 256 in
well-formed states).  Directory and inode blocks are decoded from / encoded
to bytes exactly as the C++ reinterpret-casts do, with little-endian 32-bit
integer fields as the spec fixes.  The allocation bitmap, which the C++
keeps in the superblock via `BasicFileSys`, is modelled as a list of
booleans.

`Blocks.h` and `BasicFileSys` are not part of the provided sources; their
layout, constants and allocator behaviour are modelled from the spec
(marked `Modelled from the spec:` below).  Everything else is translated
from `FileSys.cpp` / `FileSys.h`.
-/

namespace FS

/-- Modelled from the spec: `BLOCK_SIZE` — bytes per block; the spec fixes
the reference value 128 (`Blocks.h` is not among the provided sources). -/
def BLOCK_SIZE : Nat := 128

/-- Modelled from the spec: `NUM_BLOCKS` — total blocks on the disk; the
exact value is an implementation choice, chosen 64 here. -/
def NUM_BLOCKS : Nat := 64

/-- Modelled from the spec: `MAX_FNAME_SIZE` — maximum filename length in
bytes, not counting the terminating NUL. -/
def MAX_FNAME_SIZE : Nat := 9

/-- Modelled from the spec: `MAX_DIR_ENTRIES` — entries per directory
block; each entry is a `MAX_FNAME_SIZE + 1` byte NUL-terminated name plus
a 32-bit block number (14 bytes), and 8 entries fit a 128-byte block. -/
def MAX_DIR_ENTRIES : Nat := 8

/-- Modelled from the spec: `MAX_DATA_BLOCKS` — data-block pointers per
inode; 30 little-endian 32-bit pointers after the magic and size words
fill a 128-byte block exactly. -/
def MAX_DATA_BLOCKS : Nat := 30

/-- `MAX_FILE_SIZE = MAX_DATA_BLOCKS * BLOCK_SIZE`, as the spec fixes. -/
def MAX_FILE_SIZE : Nat := MAX_DATA_BLOCKS * BLOCK_SIZE

/-- Modelled from the spec: `DIR_MAGIC_NUM` — the directory tag at offset
0 of a directory block.  The exact value is an implementation choice; the
spec requires it distinct from the inode tag. -/
def DIR_MAGIC_NUM : Nat := 4294967295

/-- Modelled from the spec: `INODE_MAGIC_NUM` — the inode tag at offset 0
of an inode block, distinct from `DIR_MAGIC_NUM`. -/
def INODE_MAGIC_NUM : Nat := 4294967294

/-- `kInvalidHandle` from `FileSys.h`: block handle 0 is the reserved
invalid/null value. -/
def kInvalidHandle : Nat := 0

/-- `kRootDirHandle` from `FileSys.h`: block 1 is the root directory. -/
def kRootDirHandle : Nat := 1

/-- The error codes of `FileSys.h` (`enum class FileError`). -/
inductive FileError where
  | kOK
  | kFileNotDir
  | kFileIsDir
  | kFileExists
  | kFileNotExists
  | kFileNameTooLong
  | kDiskFull
  | kDirFull
  | kDirNotEmpty
  | kAppendExceedsMaxSize
  | kCommandNotFound
deriving DecidableEq, Repr

/-- Byte `i` of a byte list, as the C++ reads memory: out-of-range reads
default to 0 and every byte is reduced mod 256. -/
def byteAt (l : List Nat) (i : Nat) : Nat := l.getD i 0 % 256

/-- Little-endian decoding of the 32-bit word at byte offset `off`, as the
C++ reinterpret-cast of four bytes to `unsigned int` on a little-endian
host. -/
def decode32 (l : List Nat) (off : Nat) : Nat :=
  byteAt l off + 256 * byteAt l (off + 1) + 65536 * byteAt l (off + 2) +
    16777216 * byteAt l (off + 3)

/-- Little-endian encoding of a 32-bit word into four bytes. -/
def le32 (n : Nat) : List Nat :=
  [n % 256, n / 256 % 256, n / 65536 % 256, n / 16777216 % 256]

/-- Pad or truncate a byte list to exactly `n` bytes, the shape of every
raw `BLOCK_SIZE`-byte buffer filled by `read_block`. -/
def padTo (n : Nat) (l : List Nat) : List Nat :=
  l.take n ++ List.replicate (n - l.length) 0

/-- A directory entry of `dirblock_t` (`Blocks.h`, modelled from the
spec): a `MAX_FNAME_SIZE + 1` byte NUL-terminated name array and a block
number; `block_num = 0` marks the slot free. -/
structure DirEntry where
  name : List Nat
  block_num : Nat
deriving DecidableEq, Repr

/-- `dirblock_t` (`Blocks.h`, modelled from the spec): magic, entry count
and `MAX_DIR_ENTRIES` entries. -/
structure DirBlock where
  magic : Nat
  num_entries : Nat
  dir_entries : List DirEntry
deriving DecidableEq, Repr

/-- `inode_t` (`Blocks.h`, modelled from the spec): magic, size in bytes
and `MAX_DATA_BLOCKS` data-block pointers; pointer 0 means "slot not yet
allocated". -/
structure Inode where
  magic : Nat
  size : Nat
  blocks : List Nat
deriving DecidableEq, Repr

/-- Decode one 14-byte directory entry from the head of a byte list. -/
def decodeEntry (l : List Nat) : DirEntry :=
  ⟨l.take (MAX_FNAME_SIZE + 1), decode32 l (MAX_FNAME_SIZE + 1)⟩

/-- Reinterpret a raw block as `dirblock_t`, byte for byte. -/
def decodeDir (bytes : List Nat) : DirBlock :=
  ⟨decode32 bytes 0, decode32 bytes 4,
    (List.range MAX_DIR_ENTRIES).map fun i =>
      decodeEntry ((bytes.drop 8).drop ((MAX_FNAME_SIZE + 5) * i))⟩

/-- Reinterpret a raw block as `inode_t`, byte for byte. -/
def decodeInode (bytes : List Nat) : Inode :=
  ⟨decode32 bytes 0, decode32 bytes 4,
    (List.range MAX_DATA_BLOCKS).map fun i => decode32 ((bytes.drop 8).drop (4 * i)) 0⟩

/-- Encode one directory entry into its 14 bytes. -/
def encodeEntry (e : DirEntry) : List Nat :=
  padTo (MAX_FNAME_SIZE + 1) e.name ++ le32 e.block_num

/-- Encode a `dirblock_t` into its `BLOCK_SIZE` bytes (8 bytes of header,
8 entries of 14 bytes, 8 bytes of trailing padding). -/
def encodeDir (d : DirBlock) : List Nat :=
  le32 d.magic ++ le32 d.num_entries ++
    (((d.dir_entries ++ List.replicate MAX_DIR_ENTRIES (⟨[], 0⟩ : DirEntry)).take
        MAX_DIR_ENTRIES).flatMap encodeEntry) ++ List.replicate 8 0

/-- Encode an `inode_t` into its `BLOCK_SIZE` bytes. -/
def encodeInode (ino : Inode) : List Nat :=
  le32 ino.magic ++ le32 ino.size ++
    ((ino.blocks.take MAX_DATA_BLOCKS ++
        List.replicate (MAX_DATA_BLOCKS - ino.blocks.length) 0).flatMap le32)

/-- The mounted file-system state: the allocation bitmap (kept in the
superblock by `BasicFileSys`), the raw blocks, the current-directory
cursor, the last-error slot and the buffered response (`FileSys.h`
members `_bfs`, `_curDirHandle`, `_lastErr`, `_response`). -/
structure State where
  bitmap : List Bool
  disk : List (List Nat)
  curDir : Nat
  lastErr : FileError
  response : List Nat
deriving DecidableEq, Repr

/-- `read_block` of the block device: returns the `BLOCK_SIZE` bytes of
block `h` (the backing store always yields full blocks). -/
def readBlock (d : List (List Nat)) (h : Nat) : List Nat :=
  padTo BLOCK_SIZE (d.getD h [])

/-- `write_block` of the block device. -/
def writeBlock (d : List (List Nat)) (h : Nat) (blk : List Nat) : List (List Nat) :=
  d.set h blk

/-- Modelled from the spec: `get_free_block` of `BasicFileSys` (not among
the provided sources) — scans the bitmap for the lowest-indexed clear bit
at index 2 or above, sets it and returns the index; returns 0 when no
block is free. -/
def get_free_block (bm : List Bool) : Nat × List Bool :=
  match (List.range bm.length).find? (fun i => decide (2 ≤ i) && !(bm.getD i true)) with
  | some i => (i, bm.set i true)
  | none => (0, bm)

/-- Modelled from the spec: `reclaim_block` of `BasicFileSys` — clears
bit `n` of the bitmap. -/
def reclaim_block (bm : List Bool) (n : Nat) : List Bool :=
  bm.set n false

/-- The NUL-terminated content of a name array, as `strcmp` sees it. -/
def cname (bytes : List Nat) : List Nat := bytes.takeWhile (fun b => b ≠ 0)

/-- The match predicate used by every name lookup in `FileSys.cpp`:
`a_entry.block_num != kInvalidHandle && strcmp(a_entry.name, a_name) == 0`. -/
def entryMatches (e : DirEntry) (name : List Nat) : Bool :=
  e.block_num ≠ kInvalidHandle && cname e.name = name

/-- `ForEachDirEntry` with the name-lookup predicate: the first matching
entry in slot order, if any. -/
def findEntry (dir : DirBlock) (name : List Nat) : Option DirEntry :=
  dir.dir_entries.find? (fun e => entryMatches e name)

/-- The slot index of the first matching entry, used where the C++ mutates
the entry in place. -/
def findEntryIdx (dir : DirBlock) (name : List Nat) : Option Nat :=
  dir.dir_entries.findIdx? (fun e => entryMatches e name)

/-- `strcpy(entry->name, a_name)`: the name plus its NUL overwrite the
front of the stored array, trailing bytes of the old array survive. -/
def strcpyName (old : List Nat) (name : List Nat) : List Nat :=
  (name ++ 0 :: old.drop (name.length + 1)).take (MAX_FNAME_SIZE + 1)

/-- `FileSys::ReadDirBlock`: read and reinterpret block `h` as a
directory; on magic mismatch set last-error `kFileNotDir`. -/
def ReadDirBlock (s : State) (h : Nat) : (DirBlock × Bool) × State :=
  let d := decodeDir (readBlock s.disk h)
  if d.magic = DIR_MAGIC_NUM then ((d, true), s)
  else ((d, false), {s with lastErr := FileError.kFileNotDir})

/-- `FileSys::ReadINodeBlock`: read and reinterpret block `h` as an
inode; on magic mismatch set last-error `kFileIsDir`. -/
def ReadINodeBlock (s : State) (h : Nat) : (Inode × Bool) × State :=
  let ino := decodeInode (readBlock s.disk h)
  if ino.magic = INODE_MAGIC_NUM then ((ino, true), s)
  else ((ino, false), {s with lastErr := FileError.kFileIsDir})

/-- `FileSys::InsertIntoDirectory`: duplicate-name check first, then the
full-directory check, then the name-length check, then write the name and
handle into the first free slot and bump `num_entries` (32-bit
increment).  Returns the updated directory, the success flag and the
error the call stores in the last-error slot, if any. -/
def InsertIntoDirectory (dir : DirBlock) (h : Nat) (name : List Nat) :
    DirBlock × Bool × Option FileError :=
  if (findEntry dir name).isSome then
    (dir, false, some FileError.kFileExists)
  else if MAX_DIR_ENTRIES ≤ dir.num_entries then
    (dir, false, some FileError.kDirFull)
  else if MAX_FNAME_SIZE < name.length then
    (dir, false, some FileError.kFileNameTooLong)
  else
    match dir.dir_entries.findIdx? (fun e => e.block_num == kInvalidHandle) with
    | some i =>
        let e := dir.dir_entries.getD i ⟨[], 0⟩
        ({dir with
            num_entries := (dir.num_entries + 1) % 4294967296,
            dir_entries := dir.dir_entries.set i ⟨strcpyName e.name name, h⟩},
          true, none)
    | none => (dir, false, none)

/-- The zero-filled, magic-stamped bytes of a fresh directory block
(`InitializeBlock(dirblock_t&)`). -/
def initDirBytes : List Nat :=
  encodeDir ⟨DIR_MAGIC_NUM, 0, List.replicate MAX_DIR_ENTRIES ⟨List.replicate (MAX_FNAME_SIZE + 1) 0, 0⟩⟩

/-- The zero-filled, magic-stamped bytes of a fresh inode block
(`InitializeBlock(inode_t&)`). -/
def initInodeBytes : List Nat :=
  encodeInode ⟨INODE_MAGIC_NUM, 0, List.replicate MAX_DATA_BLOCKS 0⟩

/-- `FileSys::MakeBlock<BlockType>`: read the current-directory block raw
(no magic check), allocate a handle, insert into the directory; on insert
failure reclaim the handle, on success write the fresh block and the
updated parent. -/
def MakeBlock (s : State) (initBytes : List Nat) (name : List Nat) : State :=
  let curDir := decodeDir (readBlock s.disk s.curDir)
  let hb := get_free_block s.bitmap
  if hb.1 = kInvalidHandle then {s with lastErr := FileError.kDiskFull}
  else
    match InsertIntoDirectory curDir hb.1 name with
    | (dir', true, _) =>
        {s with
          bitmap := hb.2,
          disk := writeBlock (writeBlock s.disk hb.1 initBytes) s.curDir (encodeDir dir')}
    | (_, false, errOpt) =>
        {s with
          bitmap := reclaim_block hb.2 hb.1,
          lastErr := errOpt.getD s.lastErr}

/-- `FileSys::mkdir`. -/
def mkdir (s : State) (name : List Nat) : State := MakeBlock s initDirBytes name

/-- `FileSys::create`. -/
def create (s : State) (name : List Nat) : State := MakeBlock s initInodeBytes name

/-- `FileSys::cd`: look the name up in the current directory; on a hit
set the cursor to the entry's block number without inspecting the target
block; on a miss set last-error `kFileNotExists`. -/
def cd (s : State) (name : List Nat) : State :=
  let r := ReadDirBlock s s.curDir
  if !r.1.2 then r.2
  else
    match findEntry r.1.1 name with
    | some e => {r.2 with curDir := e.block_num}
    | none => {r.2 with lastErr := FileError.kFileNotExists}

/-- `FileSys::home`: reset the cursor to the root directory. -/
def home (s : State) : State := {s with curDir := kRootDirHandle}

/-- `FileSys::rmdir`. -/
def rmdir (s : State) (name : List Nat) : State :=
  let r := ReadDirBlock s s.curDir
  if !r.1.2 then r.2
  else
    match findEntryIdx r.1.1 name with
    | none => {r.2 with lastErr := FileError.kFileNotExists}
    | some idx =>
        let curDir := r.1.1
        let e := curDir.dir_entries.getD idx ⟨[], 0⟩
        let rd := ReadDirBlock r.2 e.block_num
        if !rd.1.2 then {rd.2 with lastErr := FileError.kFileNotDir}
        else if rd.1.1.num_entries = 0 then
          let dir' : DirBlock :=
            {curDir with
              num_entries := (curDir.num_entries + 4294967295) % 4294967296,
              dir_entries := curDir.dir_entries.set idx ⟨e.name, kInvalidHandle⟩}
          {rd.2 with
            bitmap := reclaim_block rd.2.bitmap e.block_num,
            disk := writeBlock rd.2.disk rd.2.curDir (encodeDir dir')}
        else {rd.2 with lastErr := FileError.kDirNotEmpty}

/-- `FileSys::ls`: emit each used slot's name, a `/` when the referenced
block carries the directory magic, and a newline; then a final newline. -/
def ls (s : State) : State :=
  let r := ReadDirBlock s s.curDir
  if !r.1.2 then r.2
  else
    {r.2 with
      response := r.2.response ++
        (r.1.1.dir_entries.flatMap fun e =>
          if e.block_num ≠ kInvalidHandle then
            cname e.name ++
              (if decode32 (readBlock s.disk e.block_num) 0 = DIR_MAGIC_NUM then [47] else []) ++
              [10]
          else []) ++ [10]}

/-- The block-allocation count of `FileSys::append`: full blocks of the
overflow past the current block's free bytes, plus one for a partial
block, plus one when the working slot `blocks[size / BLOCK_SIZE]` is
still unallocated. -/
def numAllocBlocks (ino : Inode) (dataLen : Nat) : Nat :=
  let freeCount := BLOCK_SIZE - ino.size % BLOCK_SIZE
  let allocSize := if freeCount < dataLen then dataLen - freeCount else 0
  let n := allocSize / BLOCK_SIZE
  let n := if allocSize % BLOCK_SIZE ≠ 0 then n + 1 else n
  if ino.blocks.getD (ino.size / BLOCK_SIZE) 0 = kInvalidHandle then n + 1 else n

/-- The allocation loop of `FileSys::append`: pull `n` handles from
`get_free_block`, pushing each before testing it; stop with failure on
the first 0 handle (the `bad_block_alloc` throw). -/
def allocBlocks : Nat → List Bool → List Nat × List Bool × Bool
  | 0, bm => ([], bm, true)
  | n + 1, bm =>
      let hb := get_free_block bm
      if hb.1 = kInvalidHandle then ([hb.1], hb.2, false)
      else
        let r := allocBlocks n hb.2
        (hb.1 :: r.1, r.2.1, r.2.2)

/-- The rollback loop of the `bad_block_alloc` handler: reclaim every
collected handle except invalid ones, in collection order. -/
def rollback (bm : List Bool) (handles : List Nat) : List Bool :=
  handles.foldl (fun b h => if h ≠ kInvalidHandle then reclaim_block b h else b) bm

/-- The handle-assignment loop of `FileSys::append`: walk the inode slots
from `size / BLOCK_SIZE`, dropping the back of the collected handle list
into each still-zero slot; `rem` counts the slots left before
`MAX_DATA_BLOCKS`.  The handle list passed here is already reversed so
its head is the C++ `handles.back()`. -/
def assignGo : List Nat → Nat → List Nat → Nat → List Nat
  | blocks, _, [], _ => blocks
  | blocks, _, _ :: _, 0 => blocks
  | blocks, i, h :: hs, rem + 1 =>
      if blocks.getD i 0 = kInvalidHandle then assignGo (blocks.set i h) (i + 1) hs rem
      else assignGo blocks (i + 1) (h :: hs) rem

/-- Handle assignment for a full handle list, as `FileSys::append` does
between allocation and the byte copy. -/
def assignHandles (ino : Inode) (handles : List Nat) : Inode :=
  {ino with
    blocks := assignGo ino.blocks (ino.size / BLOCK_SIZE) handles.reverse
      (MAX_DATA_BLOCKS - ino.size / BLOCK_SIZE)}

/-- The byte-copy loop of `FileSys::append`, one byte per step: write the
byte at offset `size % BLOCK_SIZE` of the block in working slot
`size / BLOCK_SIZE`, bump the size, repeat.  The C++ loop buffers a block
between reads and writes; writing through on every byte leaves the same
disk. -/
def copyData : List (List Nat) → Inode → List Nat → List (List Nat) × Inode
  | d, ino, [] => (d, ino)
  | d, ino, b :: rest =>
      let h := ino.blocks.getD (ino.size / BLOCK_SIZE) 0
      let blk := (readBlock d h).set (ino.size % BLOCK_SIZE) b
      copyData (writeBlock d h blk) {ino with size := ino.size + 1} rest

/-- `FileSys::append`. -/
def append (s : State) (name data : List Nat) : State :=
  if data = [] then s
  else
    let r := ReadDirBlock s s.curDir
    if !r.1.2 then r.2
    else
      match findEntry r.1.1 name with
      | none => {r.2 with lastErr := FileError.kFileNotExists}
      | some e =>
          let ri := ReadINodeBlock r.2 e.block_num
          if !ri.1.2 then ri.2
          else
            let ino := ri.1.1
            let s2 := ri.2
            if (MAX_FILE_SIZE + 18446744073709551616 - ino.size) % 18446744073709551616 <
                data.length then
              {s2 with lastErr := FileError.kAppendExceedsMaxSize}
            else
              let ar := allocBlocks (numAllocBlocks ino data.length) s2.bitmap
              if !ar.2.2 then
                {s2 with bitmap := rollback ar.2.1 ar.1, lastErr := FileError.kDiskFull}
              else
                let ino1 := assignHandles ino ar.1
                let ci := copyData s2.disk ino1 data
                {s2 with
                  bitmap := ar.2.1,
                  disk := writeBlock ci.1 e.block_num (encodeInode ci.2)}

/-- The byte-emission loop of `FileSys::head`: `size / BLOCK_SIZE + 1`
blocks, full blocks except for the last, which contributes
`size % BLOCK_SIZE` bytes. -/
def headBytes (d : List (List Nat)) (ino : Inode) (sz : Nat) : List Nat :=
  (List.range (sz / BLOCK_SIZE + 1)).flatMap fun i =>
    let blk := readBlock d (ino.blocks.getD i 0)
    if i = sz / BLOCK_SIZE then blk.take (sz % BLOCK_SIZE) else blk.take BLOCK_SIZE

/-- `FileSys::head`. -/
def head (s : State) (name : List Nat) (n : Nat) : State :=
  let r := ReadDirBlock s s.curDir
  if !r.1.2 then r.2
  else
    match findEntry r.1.1 name with
    | none => {r.2 with lastErr := FileError.kFileNotExists}
    | some e =>
        let ri := ReadINodeBlock r.2 e.block_num
        if !ri.1.2 then ri.2
        else
          let ino := ri.1.1
          if ino.size = 0 then ri.2
          else
            let sz := if n < ino.size then n else ino.size
            {ri.2 with response := ri.2.response ++ headBytes ri.2.disk ino sz ++ [10]}

/-- `FileSys::cat`, defined as `head(name, MAX_FILE_SIZE)`. -/
def cat (s : State) (name : List Nat) : State := head s name MAX_FILE_SIZE

/-- `FileSys::rm`: reclaim `size / MAX_DATA_BLOCKS + 1` data-block slots
when the size is non-zero (the formula of the source), then the inode
block, then clear the parent slot and decrement `num_entries` (32-bit
decrement). -/
def rm (s : State) (name : List Nat) : State :=
  let r := ReadDirBlock s s.curDir
  if !r.1.2 then r.2
  else
    match findEntryIdx r.1.1 name with
    | none => {r.2 with lastErr := FileError.kFileNotExists}
    | some idx =>
        let curDir := r.1.1
        let e := curDir.dir_entries.getD idx ⟨[], 0⟩
        let ri := ReadINodeBlock r.2 e.block_num
        if !ri.1.2 then ri.2
        else
          let ino := ri.1.1
          let bm1 :=
            if ino.size ≠ 0 then
              (List.range (ino.size / MAX_DATA_BLOCKS + 1)).foldl
                (fun bm i => reclaim_block bm (ino.blocks.getD i 0)) ri.2.bitmap
            else ri.2.bitmap
          let dir' : DirBlock :=
            {curDir with
              num_entries := (curDir.num_entries + 4294967295) % 4294967296,
              dir_entries := curDir.dir_entries.set idx ⟨e.name, kInvalidHandle⟩}
          {ri.2 with
            bitmap := reclaim_block bm1 e.block_num,
            disk := writeBlock ri.2.disk ri.2.curDir (encodeDir dir')}

/-- Decimal rendering of a number, as `operator<<` on the stringstream. -/
def natDec (n : Nat) : List Nat := (Nat.toDigits 10 n).map Char.toNat

/-- The bytes of a literal label string. -/
def strBytes (s : String) : List Nat := s.toUTF8.toList.map UInt8.toNat

/-- `FileSys::stat`. -/
def stat (s : State) (name : List Nat) : State :=
  let r := ReadDirBlock s s.curDir
  if !r.1.2 then r.2
  else
    match findEntry r.1.1 name with
    | none => {r.2 with lastErr := FileError.kFileNotExists}
    | some e =>
        let buf := readBlock s.disk e.block_num
        if decode32 buf 0 = DIR_MAGIC_NUM then
          {r.2 with response := r.2.response ++
            strBytes "Directory name: " ++ cname e.name ++ [47, 10] ++
            strBytes "Directory block: " ++ natDec e.block_num ++ [10]}
        else
          let ino := decodeInode buf
          {r.2 with response := r.2.response ++
            strBytes "iNode block: " ++ natDec e.block_num ++ [10] ++
            strBytes "Bytes in files: " ++ natDec ino.size ++ [10] ++
            strBytes "Number of blocks: " ++
              natDec (if ino.size = 0 then 1 else ino.size / BLOCK_SIZE + 2) ++ [10] ++
            strBytes "First block: " ++
              (if ino.size = 0 then strBytes "N/A" else natDec (ino.blocks.getD 0 0)) ++ [10]}

/-- The trailing-newline strip of `FileSys::getQueryResponse`. -/
def dropTrailingNewlines (l : List Nat) : List Nat :=
  (l.reverse.dropWhile (fun b => b == 10)).reverse

/-- `FileSys::getQueryResponse`: strip every trailing newline from the
accumulated response, append exactly one newline, clear the stored
response, return the result. -/
def getQueryResponse (s : State) : List Nat × State :=
  (dropTrailingNewlines s.response ++ [10], {s with response := []})

/-- A zero-filled raw block. -/
def zeroBlock : List Nat := List.replicate BLOCK_SIZE 0

/-- Modelled from the spec: the freshly formatted, mounted state
(`BasicFileSys::mount` is not among the provided sources) — superblock
bit 0 and root-directory bit 1 set, block 1 an empty root directory, the
cursor at the root. -/
def formatState : State :=
  { bitmap := true :: true :: List.replicate (NUM_BLOCKS - 2) false,
    disk := zeroBlock :: initDirBytes :: List.replicate (NUM_BLOCKS - 2) zeroBlock,
    curDir := kRootDirHandle,
    lastErr := FileError.kOK,
    response := [] }

/-! ### Generic list helpers -/

theorem getD_set_self {α : Type} (l : List α) (i : Nat) (v d : α) (h : i < l.length) :
    (l.set i v).getD i d = v := by
  simp [List.getD_eq_getElem?_getD, List.getElem?_set_self h]

theorem getD_set_ne {α : Type} (l : List α) {i j : Nat} (v d : α) (h : i ≠ j) :
    (l.set i v).getD j d = l.getD j d := by
  simp [List.getD_eq_getElem?_getD, List.getElem?_set_ne h]

theorem set_of_getD_false (l : List Bool) (i : Nat) (h : l.getD i true = false) :
    l.set i false = l := by
  induction l generalizing i with
  | nil => rfl
  | cons a t ih =>
      cases i with
      | zero => simp only [List.getD_cons_zero] at h; simp [h]
      | succ n =>
          simp only [List.getD_cons_succ] at h
          simp [List.set_cons_succ, ih n h]

theorem takeWhile_dropWhile_nil {α : Type} (p : α → Bool) (l : List α) :
    (l.dropWhile p).takeWhile p = [] := by
  induction l with
  | nil => rfl
  | cons a t ih =>
      by_cases h : p a = true
      · simpa [List.dropWhile_cons, h] using ih
      · simp [List.dropWhile_cons, h, List.takeWhile_cons]

/-! ### C10: response normalization -/

/-- C10: `getQueryResponse` removes every trailing newline from the
accumulated response, appends exactly one newline and clears the stored
response; so the returned body is never empty, ends in exactly one
newline, and after a command that produced no output it is the single
byte `"\n"`. -/
theorem getQueryResponse_normalizes (s : State) :
    getQueryResponse s = (dropTrailingNewlines s.response ++ [10], {s with response := []}) ∧
    (getQueryResponse s).1 ≠ [] ∧
    ((getQueryResponse s).1.reverse.takeWhile (fun b => b == 10)) = [10] ∧
    (s.response = [] → (getQueryResponse s).1 = [10]) := by
  refine ⟨rfl, by simp [getQueryResponse], ?_, ?_⟩
  · have h1 : (dropTrailingNewlines s.response).reverse.takeWhile (fun b => b == 10) = [] := by
      unfold dropTrailingNewlines
      rw [List.reverse_reverse]
      exact takeWhile_dropWhile_nil _ _
    show ((dropTrailingNewlines s.response ++ [10]).reverse.takeWhile fun b => b == 10) = [10]
    simp [List.reverse_append, List.takeWhile_cons, h1]
  · intro h
    simp [getQueryResponse, h, dropTrailingNewlines]

/-- C10 witness: on a state with an empty accumulated response the
returned body is exactly one newline byte. -/
theorem getQueryResponse_normalizes_witness :
    (getQueryResponse ⟨[], [], 0, FileError.kOK, []⟩).1 = [10] :=
  (getQueryResponse_normalizes ⟨[], [], 0, FileError.kOK, []⟩).2.2.2 rfl

/-! ### C5: order of the insert checks -/

/-- C5: `InsertIntoDirectory` evaluates its failure checks in order:
duplicate name (`kFileExists`), then full directory (`kDirFull`), then
over-long name (`kFileNameTooLong`); hence an over-long name inserted
into a full directory reports `kDirFull`. -/
theorem insert_checks_order (dir : DirBlock) (h : Nat) (name : List Nat) :
    ((findEntry dir name).isSome = true →
      InsertIntoDirectory dir h name = (dir, false, some FileError.kFileExists)) ∧
    ((findEntry dir name).isSome = false → MAX_DIR_ENTRIES ≤ dir.num_entries →
      InsertIntoDirectory dir h name = (dir, false, some FileError.kDirFull)) ∧
    ((findEntry dir name).isSome = false → dir.num_entries < MAX_DIR_ENTRIES →
      MAX_FNAME_SIZE < name.length →
      InsertIntoDirectory dir h name = (dir, false, some FileError.kFileNameTooLong)) := by
  refine ⟨fun h1 => ?_, fun h1 h2 => ?_, fun h1 h2 h3 => ?_⟩
  · simp [InsertIntoDirectory, h1]
  · simp [InsertIntoDirectory, h1, h2]
  · simp [InsertIntoDirectory, h1, Nat.not_le.mpr h2, h3]

/-- A full directory whose eight slots all hold the name `"a"`. -/
def fullDirC5 : DirBlock :=
  ⟨DIR_MAGIC_NUM, 8, List.replicate 8 ⟨[97, 0, 0, 0, 0, 0, 0, 0, 0, 0], 5⟩⟩

/-- C5 witness: inserting a 12-byte name into a full directory reports
`kDirFull`, not `kFileNameTooLong`. -/
theorem insert_checks_order_witness :
    InsertIntoDirectory fullDirC5 9 (List.replicate 12 98) =
      (fullDirC5, false, some FileError.kDirFull) :=
  (insert_checks_order fullDirC5 9 (List.replicate 12 98)).2.1 (by decide) (by decide)

/-! ### C6: the allocation count of append -/

/-- C6: for a size-check-passing append of `L > 0` bytes onto an inode
whose working slot is empty exactly when the size sits on a block
boundary (§3 invariant 4), the allocation count of `FileSys::append` is
the claimed overflow formula and equals
`ceil((size + L) / BLOCK_SIZE) - ceil(size / BLOCK_SIZE)`, the exact
number of new data blocks the grown file needs. -/
theorem append_alloc_count (ino : Inode) (L : Nat) (hL : 0 < L)
    (hinv : ino.blocks.getD (ino.size / BLOCK_SIZE) 0 = 0 ↔ ino.size % BLOCK_SIZE = 0) :
    (numAllocBlocks ino L =
      (if BLOCK_SIZE - ino.size % BLOCK_SIZE < L then L - (BLOCK_SIZE - ino.size % BLOCK_SIZE)
        else 0) / BLOCK_SIZE +
      (if (if BLOCK_SIZE - ino.size % BLOCK_SIZE < L then
            L - (BLOCK_SIZE - ino.size % BLOCK_SIZE) else 0) % BLOCK_SIZE ≠ 0 then 1 else 0) +
      (if ino.blocks.getD (ino.size / BLOCK_SIZE) 0 = 0 then 1 else 0)) ∧
    numAllocBlocks ino L =
      (ino.size + L + (BLOCK_SIZE - 1)) / BLOCK_SIZE -
        (ino.size + (BLOCK_SIZE - 1)) / BLOCK_SIZE := by
  constructor
  · simp only [numAllocBlocks, kInvalidHandle, BLOCK_SIZE]
    split_ifs <;> omega
  · by_cases hz : ino.size % BLOCK_SIZE = 0
    · have hslot := hinv.mpr hz
      simp only [numAllocBlocks, kInvalidHandle, BLOCK_SIZE] at hslot ⊢
      simp only [BLOCK_SIZE] at hz
      split_ifs <;> omega
    · have hslot : ¬ ino.blocks.getD (ino.size / BLOCK_SIZE) 0 = 0 := fun hh => hz (hinv.mp hh)
      simp only [numAllocBlocks, kInvalidHandle, BLOCK_SIZE] at hslot ⊢
      simp only [BLOCK_SIZE] at hz
      split_ifs <;> omega

/-- C6 witness: appending one byte to a fresh empty inode allocates
exactly one block, matching the ceiling difference. -/
theorem append_alloc_count_witness :
    numAllocBlocks ⟨INODE_MAGIC_NUM, 0, List.replicate MAX_DATA_BLOCKS 0⟩ 1 =
      ((⟨INODE_MAGIC_NUM, 0, List.replicate MAX_DATA_BLOCKS 0⟩ : Inode).size + 1 +
          (BLOCK_SIZE - 1)) / BLOCK_SIZE -
        ((⟨INODE_MAGIC_NUM, 0, List.replicate MAX_DATA_BLOCKS 0⟩ : Inode).size +
          (BLOCK_SIZE - 1)) / BLOCK_SIZE :=
  (append_alloc_count ⟨INODE_MAGIC_NUM, 0, List.replicate MAX_DATA_BLOCKS 0⟩ 1
    (by decide) (by decide)).2

set_option maxRecDepth 40000

/-! ### C2: the rm block-count bug -/

/-- C2 (code bug): from a fresh disk, `create f; append f (30 bytes); rm f`
runs without a reported error, yet `rm` reclaims
`size / MAX_DATA_BLOCKS + 1 = 2` inode slots although the file occupies
`ceil(30 / BLOCK_SIZE) = 1` data block; the second slot holds handle 0,
so `reclaim_block(0)` clears the superblock's own bitmap bit — an
allocation-state change at a block that is neither the file's data block
nor its inode, violating the claimed invariant. -/
theorem rm_wrong_block_count_bug :
    ((append (create formatState [102]) [102] (List.replicate 30 97)).bitmap.getD 0 false
        = true) ∧
    ((rm (append (create formatState [102]) [102] (List.replicate 30 97)) [102]).bitmap.getD 0
        true = false) ∧
    ((rm (append (create formatState [102]) [102] (List.replicate 30 97)) [102]).lastErr
        = FileError.kOK) ∧
    ((decodeInode (readBlock
        (append (create formatState [102]) [102] (List.replicate 30 97)).disk 2)).size /
        MAX_DATA_BLOCKS + 1 = 2) ∧
    (((decodeInode (readBlock
        (append (create formatState [102]) [102] (List.replicate 30 97)).disk 2)).size +
        BLOCK_SIZE - 1) / BLOCK_SIZE = 1) := by
  decide

/-! ### C3 counterexample: data ending in a newline -/

/-- C3 (counterexample): for the space-free one-byte data `D = "\n"`,
`create f; append f D; cat f` on a fresh disk yields the body `"\n"`,
not `D` followed by one newline: the trailing-newline strip of
`getQueryResponse` swallows `D`'s own newline. -/
theorem roundtrip_newline_counterexample :
    (getQueryResponse (cat (append (create formatState [102]) [102] [10]) [102])).1 = [10] ∧
    (getQueryResponse (cat (append (create formatState [102]) [102] [10]) [102])).1 ≠
      [10] ++ [10] := by
  decide

/-! ### Read-helper characterizations -/

theorem ReadDirBlock_ok (s : State) (h : Nat)
    (hm : (decodeDir (readBlock s.disk h)).magic = DIR_MAGIC_NUM) :
    ReadDirBlock s h = ((decodeDir (readBlock s.disk h), true), s) := by
  simp [ReadDirBlock, hm]

theorem ReadDirBlock_fail (s : State) (h : Nat)
    (hm : (decodeDir (readBlock s.disk h)).magic ≠ DIR_MAGIC_NUM) :
    ReadDirBlock s h =
      ((decodeDir (readBlock s.disk h), false), {s with lastErr := FileError.kFileNotDir}) := by
  simp [ReadDirBlock, hm]

theorem ReadINodeBlock_ok (s : State) (h : Nat)
    (hm : (decodeInode (readBlock s.disk h)).magic = INODE_MAGIC_NUM) :
    ReadINodeBlock s h = ((decodeInode (readBlock s.disk h), true), s) := by
  simp [ReadINodeBlock, hm]

/-! ### Failure of the current-directory read, per operation -/

theorem ls_fail_not_dir (s : State)
    (hm : (decodeDir (readBlock s.disk s.curDir)).magic ≠ DIR_MAGIC_NUM) :
    ls s = {s with lastErr := FileError.kFileNotDir} := by
  simp [ls, ReadDirBlock_fail s s.curDir hm]

theorem cd_fail_not_dir (s : State) (name : List Nat)
    (hm : (decodeDir (readBlock s.disk s.curDir)).magic ≠ DIR_MAGIC_NUM) :
    cd s name = {s with lastErr := FileError.kFileNotDir} := by
  simp [cd, ReadDirBlock_fail s s.curDir hm]

theorem rmdir_fail_not_dir (s : State) (name : List Nat)
    (hm : (decodeDir (readBlock s.disk s.curDir)).magic ≠ DIR_MAGIC_NUM) :
    rmdir s name = {s with lastErr := FileError.kFileNotDir} := by
  simp [rmdir, ReadDirBlock_fail s s.curDir hm]

theorem append_fail_not_dir (s : State) (name data : List Nat) (hd : data ≠ [])
    (hm : (decodeDir (readBlock s.disk s.curDir)).magic ≠ DIR_MAGIC_NUM) :
    append s name data = {s with lastErr := FileError.kFileNotDir} := by
  simp [append, hd, ReadDirBlock_fail s s.curDir hm]

theorem head_fail_not_dir (s : State) (name : List Nat) (n : Nat)
    (hm : (decodeDir (readBlock s.disk s.curDir)).magic ≠ DIR_MAGIC_NUM) :
    head s name n = {s with lastErr := FileError.kFileNotDir} := by
  simp [head, ReadDirBlock_fail s s.curDir hm]

theorem rm_fail_not_dir (s : State) (name : List Nat)
    (hm : (decodeDir (readBlock s.disk s.curDir)).magic ≠ DIR_MAGIC_NUM) :
    rm s name = {s with lastErr := FileError.kFileNotDir} := by
  simp [rm, ReadDirBlock_fail s s.curDir hm]

theorem stat_fail_not_dir (s : State) (name : List Nat)
    (hm : (decodeDir (readBlock s.disk s.curDir)).magic ≠ DIR_MAGIC_NUM) :
    stat s name = {s with lastErr := FileError.kFileNotDir} := by
  simp [stat, ReadDirBlock_fail s s.curDir hm]

/-! ### C4: cd performs no directory check on its target -/

/-- C4: on a lookup hit `cd` sets the cursor to the matched entry's block
number without inspecting the target block — even when the target is an
inode block — after which every operation that reads the current
directory fails with `kFileNotDir` via the directory-magic check; on a
lookup miss `cd` sets `kFileNotExists` and leaves the cursor unchanged. -/
theorem cd_no_target_check (s : State) (name other dta : List Nat) (n : Nat)
    (hdir : (decodeDir (readBlock s.disk s.curDir)).magic = DIR_MAGIC_NUM) :
    (∀ e, findEntry (decodeDir (readBlock s.disk s.curDir)) name = some e →
      cd s name = {s with curDir := e.block_num} ∧
      (decode32 (readBlock s.disk e.block_num) 0 = INODE_MAGIC_NUM →
        ls (cd s name) = {cd s name with lastErr := FileError.kFileNotDir} ∧
        cd (cd s name) other = {cd s name with lastErr := FileError.kFileNotDir} ∧
        rmdir (cd s name) other = {cd s name with lastErr := FileError.kFileNotDir} ∧
        (dta ≠ [] →
          append (cd s name) other dta = {cd s name with lastErr := FileError.kFileNotDir}) ∧
        head (cd s name) other n = {cd s name with lastErr := FileError.kFileNotDir} ∧
        rm (cd s name) other = {cd s name with lastErr := FileError.kFileNotDir} ∧
        stat (cd s name) other = {cd s name with lastErr := FileError.kFileNotDir})) ∧
    (findEntry (decodeDir (readBlock s.disk s.curDir)) name = none →
      cd s name = {s with lastErr := FileError.kFileNotExists}) := by
  constructor
  · intro e he
    have hcd : cd s name = {s with curDir := e.block_num} := by
      simp [cd, ReadDirBlock_ok s s.curDir hdir, he]
    refine ⟨hcd, fun hino => ?_⟩
    have hm : (decodeDir (readBlock (cd s name).disk (cd s name).curDir)).magic ≠
        DIR_MAGIC_NUM := by
      rw [hcd]
      show decode32 (readBlock s.disk e.block_num) 0 ≠ DIR_MAGIC_NUM
      rw [hino]
      decide
    exact ⟨ls_fail_not_dir _ hm, cd_fail_not_dir _ other hm, rmdir_fail_not_dir _ other hm,
      fun hd => append_fail_not_dir _ other dta hd hm, head_fail_not_dir _ other n hm,
      rm_fail_not_dir _ other hm, stat_fail_not_dir _ other hm⟩
  · intro hn
    simp [cd, ReadDirBlock_ok s s.curDir hdir, hn]

/-- C4 witness: on a fresh disk with one file `f` (inode at block 2),
`cd f` succeeds and moves the cursor to the inode block, after which `ls`
fails with `kFileNotDir`; `cd` of a missing name only sets
`kFileNotExists`. -/
theorem cd_no_target_check_witness :
    cd (create formatState [102]) [102] =
      {create formatState [102] with curDir := 2} ∧
    ls (cd (create formatState [102]) [102]) =
      {cd (create formatState [102]) [102] with lastErr := FileError.kFileNotDir} ∧
    cd (create formatState [102]) [103] =
      {create formatState [102] with lastErr := FileError.kFileNotExists} := by
  have h := cd_no_target_check (create formatState [102]) [102] [103] [1] 0 (by decide)
  have h1 := h.1 ⟨[102, 0, 0, 0, 0, 0, 0, 0, 0, 0], 2⟩ (by decide)
  have h2 := h1.2 (by decide)
  have h' := cd_no_target_check (create formatState [102]) [103] [103] [1] 0 (by decide)
  exact ⟨h1.1, h2.1, h'.2 (by decide)⟩

/-! ### C9: mkdir/create read the current directory without a magic check -/

theorem decode32_lt (l : List Nat) (off : Nat) : decode32 l off < 4294967296 := by
  unfold decode32 byteAt
  omega

theorem InsertIntoDirectory_err (dir : DirBlock) (h : Nat) (name : List Nat) :
    (InsertIntoDirectory dir h name).2.2 = none ∨
    (InsertIntoDirectory dir h name).2.2 = some FileError.kFileExists ∨
    (InsertIntoDirectory dir h name).2.2 = some FileError.kDirFull ∨
    (InsertIntoDirectory dir h name).2.2 = some FileError.kFileNameTooLong := by
  unfold InsertIntoDirectory
  split_ifs <;> simp
  split <;> simp

theorem InsertIntoDirectory_num_entries (dir : DirBlock) (h : Nat) (name : List Nat) :
    (InsertIntoDirectory dir h name).2.1 = false ∨
    (InsertIntoDirectory dir h name).1.num_entries = (dir.num_entries + 1) % 4294967296 := by
  unfold InsertIntoDirectory
  split_ifs <;> simp
  split <;> simp

theorem InsertIntoDirectory_success_entries (dir : DirBlock) (h : Nat) (name : List Nat)
    (hs : (InsertIntoDirectory dir h name).2.1 = true) :
    (InsertIntoDirectory dir h name).1.num_entries = (dir.num_entries + 1) % 4294967296 := by
  rcases InsertIntoDirectory_num_entries dir h name with h' | h'
  · rw [hs] at h'; cases h'
  · exact h'

theorem MakeBlock_lastErr (s : State) (initB name : List Nat) :
    (MakeBlock s initB name).lastErr = FileError.kDiskFull ∨
    (MakeBlock s initB name).lastErr = s.lastErr ∨
    (MakeBlock s initB name).lastErr = FileError.kFileExists ∨
    (MakeBlock s initB name).lastErr = FileError.kDirFull ∨
    (MakeBlock s initB name).lastErr = FileError.kFileNameTooLong := by
  simp only [MakeBlock]
  split_ifs with h0
  · left; rfl
  · rcases hi : InsertIntoDirectory (decodeDir (readBlock s.disk s.curDir))
        (get_free_block s.bitmap).1 name with ⟨dir', ok, errOpt⟩
    have herr := InsertIntoDirectory_err (decodeDir (readBlock s.disk s.curDir))
      (get_free_block s.bitmap).1 name
    rw [hi] at herr
    simp only at herr
    cases ok
    · rcases herr with h | h | h | h <;> subst h <;> simp [hi, Option.getD]
    · simp [hi]

theorem encodeDir_getD_four (d : DirBlock) : (encodeDir d).getD 4 0 = d.num_entries % 256 := by
  unfold encodeDir le32
  rfl

theorem MakeBlock_success_write (s : State) (initB name : List Nat)
    (h0 : (get_free_block s.bitmap).1 ≠ kInvalidHandle)
    (hins : (InsertIntoDirectory (decodeDir (readBlock s.disk s.curDir))
      (get_free_block s.bitmap).1 name).2.1 = true)
    (hcur : s.curDir < s.disk.length) :
    (MakeBlock s initB name).disk.getD s.curDir [] =
      encodeDir (InsertIntoDirectory (decodeDir (readBlock s.disk s.curDir))
        (get_free_block s.bitmap).1 name).1 ∧
    (MakeBlock s initB name).lastErr = s.lastErr := by
  simp only [MakeBlock]
  rw [if_neg h0]
  rcases hi : InsertIntoDirectory (decodeDir (readBlock s.disk s.curDir))
      (get_free_block s.bitmap).1 name with ⟨dir', ok, errOpt⟩
  rw [hi] at hins
  simp only at hins
  subst hins
  simp only [writeBlock]
  constructor
  · rw [getD_set_self]
    rw [List.length_set]
    exact hcur
  · trivial

/-- C9: unlike every operation that goes through `ReadDirBlock`,
`MakeBlock` (shared by `mkdir` and `create`) reads the current-directory
block without verifying its directory magic: with the cursor on an inode
block neither `mkdir` nor `create` fails with `kFileNotDir`; they
reinterpret the inode block as a directory and, when the insert
succeeds, write the reinterpreted block back, changing the inode block's
bytes. -/
theorem makeblock_skips_dir_check (s : State) (name : List Nat)
    (hcur : decode32 (readBlock s.disk s.curDir) 0 = INODE_MAGIC_NUM)
    (hle : s.lastErr ≠ FileError.kFileNotDir) :
    (mkdir s name).lastErr ≠ FileError.kFileNotDir ∧
    (create s name).lastErr ≠ FileError.kFileNotDir ∧
    ((get_free_block s.bitmap).1 ≠ kInvalidHandle →
      (InsertIntoDirectory (decodeDir (readBlock s.disk s.curDir))
        (get_free_block s.bitmap).1 name).2.1 = true →
      s.curDir < s.disk.length →
      (create s name).disk.getD s.curDir [] =
        encodeDir (InsertIntoDirectory (decodeDir (readBlock s.disk s.curDir))
          (get_free_block s.bitmap).1 name).1 ∧
      (create s name).disk.getD s.curDir [] ≠ readBlock s.disk s.curDir ∧
      (create s name).lastErr = s.lastErr) := by
  have herr : ∀ initB, (MakeBlock s initB name).lastErr ≠ FileError.kFileNotDir := by
    intro initB
    rcases MakeBlock_lastErr s initB name with h | h | h | h | h <;> rw [h] <;>
      first | exact hle | decide
  refine ⟨herr _, herr _, fun h0 hins hcl => ?_⟩
  obtain ⟨hw, hl⟩ := MakeBlock_success_write s initInodeBytes name h0 hins hcl
  have hc : create s name = MakeBlock s initInodeBytes name := rfl
  rw [hc]
  refine ⟨hw, ?_, hl⟩
  rw [hw]
  intro heq
  have hb4 : (encodeDir (InsertIntoDirectory (decodeDir (readBlock s.disk s.curDir))
      (get_free_block s.bitmap).1 name).1).getD 4 0 =
      (readBlock s.disk s.curDir).getD 4 0 := by rw [heq]
  rw [encodeDir_getD_four] at hb4
  have hne := InsertIntoDirectory_success_entries (decodeDir (readBlock s.disk s.curDir))
    (get_free_block s.bitmap).1 name hins
  rw [hne] at hb4
  have hlt : decode32 (readBlock s.disk s.curDir) 4 < 4294967296 :=
    decode32_lt (readBlock s.disk s.curDir) 4
  have hmod : decode32 (readBlock s.disk s.curDir) 4 % 256 =
      (readBlock s.disk s.curDir).getD 4 0 % 256 := by
    unfold decode32 byteAt
    omega
  have hnum : (decodeDir (readBlock s.disk s.curDir)).num_entries =
      decode32 (readBlock s.disk s.curDir) 4 := rfl
  rw [hnum] at hb4
  omega

/-- C9 witness: on a fresh disk with one file `f`, `cd f` puts the cursor
on the inode block; `mkdir` there succeeds silently, writes the
reinterpreted block back at block 2 and changes the inode block's bytes. -/
theorem makeblock_skips_dir_check_witness :
    (mkdir (cd (create formatState [102]) [102]) [120]).lastErr ≠ FileError.kFileNotDir ∧
    (mkdir (cd (create formatState [102]) [102]) [120]).lastErr = FileError.kOK ∧
    (mkdir (cd (create formatState [102]) [102]) [120]).disk.getD 2 [] ≠
      readBlock (cd (create formatState [102]) [102]).disk 2 := by
  have h := makeblock_skips_dir_check (cd (create formatState [102]) [102]) [120]
    (by decide) (by decide)
  exact ⟨h.1, by decide, by decide⟩

/-! ### C1: append is atomic against allocation failure -/

theorem get_free_block_zero {bm : List Bool} (h : (get_free_block bm).1 = 0) :
    (get_free_block bm).2 = bm := by
  unfold get_free_block at h ⊢
  cases hf : (List.range bm.length).find? (fun i => decide (2 ≤ i) && !(bm.getD i true)) with
  | none => rfl
  | some i =>
      exfalso
      have hp := List.find?_some hf
      simp only [Bool.and_eq_true, decide_eq_true_eq, Bool.not_eq_true'] at hp
      rw [hf] at h
      have h' : i = 0 := h
      omega

theorem get_free_block_nonzero {bm : List Bool} (h : (get_free_block bm).1 ≠ 0) :
    2 ≤ (get_free_block bm).1 ∧ (get_free_block bm).1 < bm.length ∧
    bm.getD (get_free_block bm).1 true = false ∧
    (get_free_block bm).2 = bm.set (get_free_block bm).1 true := by
  unfold get_free_block at h ⊢
  cases hf : (List.range bm.length).find? (fun i => decide (2 ≤ i) && !(bm.getD i true)) with
  | none => rw [hf] at h; exact absurd rfl h
  | some i =>
      have hp := List.find?_some hf
      simp only [Bool.and_eq_true, decide_eq_true_eq, Bool.not_eq_true'] at hp
      have hmem := List.mem_of_find?_eq_some hf
      rw [List.mem_range] at hmem
      exact ⟨hp.1, hmem, hp.2, rfl⟩

theorem set_false_comm (l : List Bool) (a b : Nat) :
    (l.set a false).set b false = (l.set b false).set a false := by
  by_cases hab : a = b
  · subst hab; simp [List.set_set]
  · exact List.set_comm false false l hab

theorem rollback_cons (bm : List Bool) (a : Nat) (t : List Nat) :
    rollback bm (a :: t) =
      rollback (if a ≠ kInvalidHandle then reclaim_block bm a else bm) t := rfl

theorem rollback_set_false (hs : List Nat) : ∀ (bm : List Bool) (h : Nat),
    rollback (bm.set h false) hs = (rollback bm hs).set h false := by
  induction hs with
  | nil => intro bm h; rfl
  | cons a t ih =>
      intro bm h
      rw [rollback_cons, rollback_cons bm]
      by_cases ha : a = kInvalidHandle
      · simp only [ne_eq, ha, not_true_eq_false, if_false]
        exact ih bm h
      · simp only [ne_eq, ha, not_false_eq_true, if_true, reclaim_block]
        rw [set_false_comm, ih]

theorem allocBlocks_rollback : ∀ (n : Nat) (bm : List Bool),
    (allocBlocks n bm).2.2 = false →
    rollback (allocBlocks n bm).2.1 (allocBlocks n bm).1 = bm := by
  intro n
  induction n with
  | zero => intro bm h; simp [allocBlocks] at h
  | succ n ih =>
      intro bm h
      simp only [allocBlocks] at h ⊢
      by_cases h0 : (get_free_block bm).1 = kInvalidHandle
      · rw [if_pos h0] at h ⊢
        show rollback (get_free_block bm).2 [(get_free_block bm).1] = bm
        rw [h0]
        show (get_free_block bm).2 = bm
        exact get_free_block_zero h0
      · rw [if_neg h0] at h ⊢
        have h' : (allocBlocks n (get_free_block bm).2).2.2 = false := h
        obtain ⟨h2, hlt, hfree, hset⟩ := get_free_block_nonzero h0
        show rollback (allocBlocks n (get_free_block bm).2).2.1
          ((get_free_block bm).1 :: (allocBlocks n (get_free_block bm).2).1) = bm
        rw [rollback_cons, if_pos h0]
        show rollback ((allocBlocks n (get_free_block bm).2).2.1.set (get_free_block bm).1 false)
          (allocBlocks n (get_free_block bm).2).1 = bm
        rw [rollback_set_false, ih _ h', hset, List.set_set]
        exact set_of_getD_false bm (get_free_block bm).1 hfree

/-- C1: when any `get_free_block` call in `append`'s allocation loop
returns 0, the handler reclaims every collected handle, the operation
fails with `kDiskFull`, and the post-call state is identical to the
pre-call state in bitmap, disk, cursor and response: no inode or data
block was written. -/
theorem append_disk_full_rollback (s : State) (name data : List Nat)
    (hdata : data ≠ [])
    (hdir : (decodeDir (readBlock s.disk s.curDir)).magic = DIR_MAGIC_NUM)
    (e : DirEntry)
    (hfind : findEntry (decodeDir (readBlock s.disk s.curDir)) name = some e)
    (hino : (decodeInode (readBlock s.disk e.block_num)).magic = INODE_MAGIC_NUM)
    (hsz : ¬ ((MAX_FILE_SIZE + 18446744073709551616 -
      (decodeInode (readBlock s.disk e.block_num)).size) % 18446744073709551616 <
      data.length))
    (hfail : (allocBlocks (numAllocBlocks (decodeInode (readBlock s.disk e.block_num))
      data.length) s.bitmap).2.2 = false) :
    append s name data = {s with lastErr := FileError.kDiskFull} := by
  simp only [append, hdata, if_neg, ReadDirBlock_ok s s.curDir hdir, hfind,
    ReadINodeBlock_ok s e.block_num hino, Bool.not_true, Bool.false_eq_true, if_false,
    if_neg hsz, hfail]
  rw [allocBlocks_rollback _ _ hfail]
  simp

/-- A state whose bitmap is entirely allocated, so the next
`get_free_block` returns 0. -/
def sFullC1 : State := {create formatState [102] with bitmap := List.replicate NUM_BLOCKS true}

/-- C1 witness: appending one byte to file `f` on a state with a full
bitmap fails with `kDiskFull` and changes nothing else. -/
theorem append_disk_full_rollback_witness :
    append sFullC1 [102] [1] = {sFullC1 with lastErr := FileError.kDiskFull} :=
  append_disk_full_rollback sFullC1 [102] [1] (by decide) (by decide)
    ⟨[102, 0, 0, 0, 0, 0, 0, 0, 0, 0], 2⟩ (by decide) (by decide) (by decide) (by decide)

/-! ### C7: head on sizes that are exact block multiples -/

theorem padTo_length (n : Nat) (l : List Nat) : (padTo n l).length = n := by
  unfold padTo
  simp
  omega

theorem readBlock_length (d : List (List Nat)) (h : Nat) :
    (readBlock d h).length = BLOCK_SIZE := padTo_length _ _

theorem flatMap_length_const {α : Type} (f : α → List Nat) (l : List α) (c : Nat)
    (h : ∀ a ∈ l, (f a).length = c) : (l.flatMap f).length = l.length * c := by
  induction l with
  | nil => simp
  | cons a t ih =>
      rw [List.flatMap_cons, List.length_append, h a (List.mem_cons_self a t),
        ih (fun b hb => h b (List.mem_cons_of_mem a hb))]
      simp [Nat.succ_mul]
      omega

theorem headBytes_length (d : List (List Nat)) (ino : Inode) (sz : Nat) :
    (headBytes d ino sz).length = sz := by
  unfold headBytes
  rw [List.range_succ, List.flatMap_append, List.length_append]
  have h1 : ((List.range (sz / BLOCK_SIZE)).flatMap fun i =>
      let blk := readBlock d (ino.blocks.getD i 0)
      if i = sz / BLOCK_SIZE then blk.take (sz % BLOCK_SIZE)
      else blk.take BLOCK_SIZE).length = sz / BLOCK_SIZE * BLOCK_SIZE := by
    rw [flatMap_length_const _ _ BLOCK_SIZE, List.length_range]
    intro i hi
    rw [List.mem_range] at hi
    simp only [Nat.ne_of_lt hi, if_false]
    rw [List.length_take, readBlock_length]
    simp
  rw [h1]
  have h2 : (([sz / BLOCK_SIZE] : List Nat).flatMap fun i =>
      let blk := readBlock d (ino.blocks.getD i 0)
      if i = sz / BLOCK_SIZE then blk.take (sz % BLOCK_SIZE)
      else blk.take BLOCK_SIZE).length = sz % BLOCK_SIZE := by
    simp only [List.flatMap_cons, List.flatMap_nil, List.append_nil, if_pos rfl, if_true]
    rw [List.length_take, readBlock_length]
    have h3 : sz % BLOCK_SIZE < BLOCK_SIZE := Nat.mod_lt _ (by decide)
    omega
  rw [h2]
  simp only [BLOCK_SIZE]
  omega

/-- The state of a two-block, 256-byte file `f`: root directory at block
1, inode at block 2, data blocks 3 and 4 filled with 65s and 66s. -/
def c7State : State :=
  ⟨true :: true :: true :: true :: true :: List.replicate 59 false,
   [zeroBlock,
    encodeDir ⟨DIR_MAGIC_NUM, 1,
      ⟨[102, 0, 0, 0, 0, 0, 0, 0, 0, 0], 2⟩ ::
        List.replicate 7 ⟨List.replicate 10 0, 0⟩⟩,
    encodeInode ⟨INODE_MAGIC_NUM, 256, 3 :: 4 :: List.replicate 28 0⟩,
    List.replicate 128 65, List.replicate 128 66] ++ List.replicate 59 zeroBlock,
   1, FileError.kOK, []⟩

/-- C7 (counterexample): on a 256-byte file (`size = 2 * BLOCK_SIZE`),
`head f 300` emits all 256 data bytes followed by the newline — not fewer
than `2 * BLOCK_SIZE` bytes: the final `size % BLOCK_SIZE = 0` write is
preceded by `size / BLOCK_SIZE` full-block writes, so nothing is
dropped. -/
theorem head_full_block_counterexample :
    (head c7State [102] 300).response =
      (List.replicate 128 65 ++ List.replicate 128 66) ++ [10] ∧
    ¬ ((List.replicate 128 65 ++ (List.replicate 128 66 : List Nat)).length <
        2 * BLOCK_SIZE) := by
  decide

/-- C7 (amended): for every file whose lookup and inode read succeed,
`head` appends exactly `min(n, size)` data bytes and one newline to the
response — also when `size` is a non-zero exact multiple of
`BLOCK_SIZE`: the `size % BLOCK_SIZE` final write is compensated by the
loop running `size / BLOCK_SIZE + 1` iterations. -/
theorem head_emits_exact (s : State) (name : List Nat) (n : Nat)
    (hdir : (decodeDir (readBlock s.disk s.curDir)).magic = DIR_MAGIC_NUM)
    (e : DirEntry)
    (hfind : findEntry (decodeDir (readBlock s.disk s.curDir)) name = some e)
    (hino : (decodeInode (readBlock s.disk e.block_num)).magic = INODE_MAGIC_NUM)
    (k : Nat) (hk : 0 < k)
    (hsz : (decodeInode (readBlock s.disk e.block_num)).size = k * BLOCK_SIZE) :
    head s name n = {s with response := (s.response ++
      headBytes s.disk (decodeInode (readBlock s.disk e.block_num))
        (if n < k * BLOCK_SIZE then n else k * BLOCK_SIZE) ++ [10])} ∧
    (headBytes s.disk (decodeInode (readBlock s.disk e.block_num))
        (if n < k * BLOCK_SIZE then n else k * BLOCK_SIZE)).length =
      (if n < k * BLOCK_SIZE then n else k * BLOCK_SIZE) := by
  constructor
  · have hnz : ¬ (k * BLOCK_SIZE = 0) := by
      have hb : 0 < BLOCK_SIZE := by decide
      have := Nat.mul_pos hk hb
      omega
    simp only [head, ReadDirBlock_ok _ _ hdir, hfind, ReadINodeBlock_ok _ _ hino,
      Bool.not_true, Bool.false_eq_true, if_false, hsz]
    rw [if_neg hnz]
  · exact headBytes_length _ _ _

/-- C7 witness: on the concrete 256-byte file, `head f 300` appends
exactly 256 data bytes and the newline. -/
theorem head_emits_exact_witness :
    (headBytes c7State.disk (decodeInode (readBlock c7State.disk 2))
        (if 300 < 2 * BLOCK_SIZE then 300 else 2 * BLOCK_SIZE)).length =
      (if 300 < 2 * BLOCK_SIZE then 300 else 2 * BLOCK_SIZE) :=
  (head_emits_exact c7State [102] 300 (by decide)
    ⟨[102, 0, 0, 0, 0, 0, 0, 0, 0, 0], 2⟩ (by decide) (by decide) 2 (by decide)
    (by decide)).2

/-! ### C8: reads of an empty file -/

/-- The state of an empty file `f`: root directory at block 1, a size-0
inode at block 2. -/
def c8State : State :=
  ⟨true :: true :: true :: List.replicate 61 false,
   [zeroBlock,
    encodeDir ⟨DIR_MAGIC_NUM, 1,
      ⟨[102, 0, 0, 0, 0, 0, 0, 0, 0, 0], 2⟩ ::
        List.replicate 7 ⟨List.replicate 10 0, 0⟩⟩,
    encodeInode ⟨INODE_MAGIC_NUM, 0, List.replicate 30 0⟩] ++ List.replicate 61 zeroBlock,
   1, FileError.kOK, []⟩

/-- C8 (counterexample): `cat` of an empty file delivers the wire body
`"\n"` — non-empty and containing a newline — because
`getQueryResponse` appends one newline to the (empty) accumulated
response. -/
theorem empty_file_newline_counterexample :
    (getQueryResponse (cat c8State [102])).1 = [10] ∧
    (getQueryResponse (cat c8State [102])).1 ≠ [] ∧
    10 ∈ (getQueryResponse (cat c8State [102])).1 := by
  decide

/-- C8 (amended): `head`/`cat` of an existing empty file append nothing
to the response buffer and change nothing at all; the wire body then
delivered by `getQueryResponse` is not empty but exactly the single
newline `"\n"`. -/
theorem empty_file_head_appends_nothing (s : State) (name : List Nat) (n : Nat)
    (hdir : (decodeDir (readBlock s.disk s.curDir)).magic = DIR_MAGIC_NUM)
    (e : DirEntry)
    (hfind : findEntry (decodeDir (readBlock s.disk s.curDir)) name = some e)
    (hino : (decodeInode (readBlock s.disk e.block_num)).magic = INODE_MAGIC_NUM)
    (hsz : (decodeInode (readBlock s.disk e.block_num)).size = 0) :
    head s name n = s ∧ cat s name = s ∧
    (s.response = [] → (getQueryResponse (cat s name)).1 = [10]) := by
  have hh : ∀ m, head s name m = s := by
    intro m
    simp only [head, ReadDirBlock_ok _ _ hdir, hfind, ReadINodeBlock_ok _ _ hino,
      Bool.not_true, Bool.false_eq_true, if_false, hsz]
    simp
  have hcat : cat s name = s := hh MAX_FILE_SIZE
  refine ⟨hh n, hcat, fun hresp => ?_⟩
  rw [hcat]
  simp [getQueryResponse, hresp, dropTrailingNewlines]

/-- C8 witness: on the concrete empty file, `cat` leaves the state
unchanged and the delivered body is the single newline. -/
theorem empty_file_head_appends_nothing_witness :
    cat c8State [102] = c8State ∧ (getQueryResponse (cat c8State [102])).1 = [10] := by
  have h := empty_file_head_appends_nothing c8State [102] 0 (by decide)
    ⟨[102, 0, 0, 0, 0, 0, 0, 0, 0, 0], 2⟩ (by decide) (by decide) (by decide)
  exact ⟨h.2.1, h.2.2 rfl⟩

/-! ### Encode/decode roundtrips -/

theorem getD_true_lt (l : List Bool) (i : Nat) (h : l.getD i false = true) :
    i < l.length ∧ l.getD i true = true := by
  induction l generalizing i with
  | nil => simp [List.getD] at h
  | cons a t ih =>
      cases i with
      | zero => simp_all
      | succ n =>
          simp only [List.getD_cons_succ] at h ⊢
          have := ih n h
          exact ⟨Nat.succ_lt_succ this.1, this.2⟩

theorem getD_append_shift (a b : List Nat) (j d : Nat) :
    (a ++ b).getD (a.length + j) d = b.getD j d := by
  rw [List.getD_append_right a b d (a.length + j) (Nat.le_add_right _ _)]
  congr 1
  omega

theorem le32_length (n : Nat) : (le32 n).length = 4 := rfl

theorem decode32_le32 (n : Nat) (rest : List Nat) :
    decode32 (le32 n ++ rest) 0 = n % 4294967296 := by
  simp [decode32, byteAt, le32]
  omega

theorem decode32_append (a b : List Nat) (off : Nat) :
    decode32 (a ++ b) (a.length + off) = decode32 b off := by
  unfold decode32 byteAt
  rw [show a.length + off + 1 = a.length + (off + 1) by omega,
    show a.length + off + 2 = a.length + (off + 2) by omega,
    show a.length + off + 3 = a.length + (off + 3) by omega,
    getD_append_shift, getD_append_shift, getD_append_shift, getD_append_shift]

theorem padTo_eq_self (n : Nat) (l : List Nat) (h : l.length = n) : padTo n l = l := by
  unfold padTo
  rw [← h, List.take_length, Nat.sub_self, List.replicate_zero, List.append_nil]

theorem encodeEntry_length (e : DirEntry) : (encodeEntry e).length = MAX_FNAME_SIZE + 5 := by
  unfold encodeEntry
  rw [List.length_append, padTo_length, le32_length]

theorem encodeDir_length (d : DirBlock) : (encodeDir d).length = BLOCK_SIZE := by
  unfold encodeDir
  rw [List.length_append, List.length_append, List.length_append,
    flatMap_length_const _ _ (MAX_FNAME_SIZE + 5) (fun a _ => encodeEntry_length a),
    List.length_take, le32_length, le32_length, List.length_replicate, List.length_append,
    List.length_replicate]
  have h : min MAX_DIR_ENTRIES (d.dir_entries.length + MAX_DIR_ENTRIES) = MAX_DIR_ENTRIES := by
    simp only [MAX_DIR_ENTRIES]
    omega
  rw [h]
  decide

theorem encodeInode_length (ino : Inode) : (encodeInode ino).length = BLOCK_SIZE := by
  unfold encodeInode
  rw [List.length_append, List.length_append,
    flatMap_length_const _ _ 4 (fun a _ => le32_length a),
    le32_length, le32_length, List.length_append, List.length_take, List.length_replicate]
  have h : min MAX_DATA_BLOCKS ino.blocks.length + (MAX_DATA_BLOCKS - ino.blocks.length) =
      MAX_DATA_BLOCKS := by
    simp only [MAX_DATA_BLOCKS]
    omega
  rw [h]
  decide

theorem flatMap_const_drop {α : Type} (f : α → List Nat) (c : Nat)
    (hc : ∀ a, (f a).length = c) :
    ∀ (i : Nat) (l : List α), (l.flatMap f).drop (c * i) = (l.drop i).flatMap f := by
  intro i
  induction i with
  | zero => intro l; simp
  | succ n ih =>
      intro l
      cases l with
      | nil => simp
      | cons a t =>
          rw [List.flatMap_cons, show c * (n + 1) = c + c * n by ring,
            ← List.drop_drop, List.drop_left' (hc a), ih t, List.drop_succ_cons]

theorem decode32_at_four (x : Nat) (rest : List Nat) :
    decode32 (le32 x ++ rest) 4 = decode32 rest 0 := by
  have hd := decode32_append (le32 x) rest 0
  rw [le32_length] at hd
  simpa using hd

theorem decode32_at_name (nm : List Nat) (rest : List Nat)
    (h : nm.length = MAX_FNAME_SIZE + 1) :
    decode32 (nm ++ rest) (MAX_FNAME_SIZE + 1) = decode32 rest 0 := by
  have hd := decode32_append nm rest 0
  rw [h] at hd
  simpa using hd

theorem drop_eight (a b : List Nat) (rest : List Nat) (ha : a.length = 4)
    (hb : b.length = 4) :
    (a ++ (b ++ rest)).drop 8 = rest := by
  rw [show (8 : Nat) = 4 + 4 from rfl, ← List.drop_drop, List.drop_left' ha,
    List.drop_left' hb]

/-- Well-formedness of a directory entry: the stored name array has its
full width and the block number fits 32 bits. -/
def EntryWF (e : DirEntry) : Prop :=
  e.name.length = MAX_FNAME_SIZE + 1 ∧ e.block_num < 4294967296

/-- Well-formedness of a decoded directory block. -/
def DirWF (d : DirBlock) : Prop :=
  d.magic < 4294967296 ∧ d.num_entries < 4294967296 ∧
  d.dir_entries.length = MAX_DIR_ENTRIES ∧ ∀ e ∈ d.dir_entries, EntryWF e

/-- Well-formedness of a decoded inode block. -/
def InodeWF (ino : Inode) : Prop :=
  ino.magic < 4294967296 ∧ ino.size < 4294967296 ∧
  ino.blocks.length = MAX_DATA_BLOCKS ∧ ∀ b ∈ ino.blocks, b < 4294967296

theorem decodeEntry_encodeEntry (e : DirEntry) (rest : List Nat) (hw : EntryWF e) :
    decodeEntry (encodeEntry e ++ rest) = e := by
  obtain ⟨hname, hbn⟩ := hw
  unfold decodeEntry encodeEntry
  rw [List.append_assoc]
  show (⟨_, _⟩ : DirEntry) = ⟨e.name, e.block_num⟩
  rw [DirEntry.mk.injEq]
  constructor
  · rw [List.take_left' (padTo_length _ _), padTo_eq_self _ _ hname]
  · rw [decode32_at_name _ _ (padTo_length _ _), decode32_le32]
    exact Nat.mod_eq_of_lt hbn

theorem decodeDir_encodeDir (d : DirBlock) (h : DirWF d) : decodeDir (encodeDir d) = d := by
  obtain ⟨hm, hn, hlen, hent⟩ := h
  have htake : (d.dir_entries ++ List.replicate MAX_DIR_ENTRIES (⟨[], 0⟩ : DirEntry)).take
      MAX_DIR_ENTRIES = d.dir_entries := List.take_left' hlen
  unfold decodeDir encodeDir
  rw [htake, List.append_assoc, List.append_assoc]
  show (⟨_, _, _⟩ : DirBlock) = ⟨d.magic, d.num_entries, d.dir_entries⟩
  rw [DirBlock.mk.injEq]
  refine ⟨?_, ?_, ?_⟩
  · rw [decode32_le32]
    exact Nat.mod_eq_of_lt hm
  · rw [decode32_at_four, decode32_le32]
    exact Nat.mod_eq_of_lt hn
  · rw [drop_eight _ _ _ (le32_length _) (le32_length _)]
    apply List.ext_getElem
    · rw [List.length_map, List.length_range, hlen]
    intro i h1 h2
    rw [List.length_map, List.length_range] at h1
    rw [List.getElem_map, List.getElem_range]
    have hient : i < d.dir_entries.length := by rw [hlen]; exact h1
    have hle : (MAX_FNAME_SIZE + 5) * i ≤ (d.dir_entries.flatMap encodeEntry).length := by
      rw [flatMap_length_const _ _ (MAX_FNAME_SIZE + 5) (fun a _ => encodeEntry_length a), hlen]
      simp only [MAX_FNAME_SIZE, MAX_DIR_ENTRIES] at h1 ⊢
      omega
    rw [List.drop_append_of_le_length hle,
      flatMap_const_drop encodeEntry _ encodeEntry_length i d.dir_entries,
      List.drop_eq_getElem_cons hient, List.flatMap_cons, List.append_assoc]
    exact decodeEntry_encodeEntry _ _ (hent _ (List.getElem_mem hient))

theorem decodeInode_encodeInode (ino : Inode) (h : InodeWF ino) :
    decodeInode (encodeInode ino) = ino := by
  obtain ⟨hm, hs, hlen, hbl⟩ := h
  have htake : ino.blocks.take MAX_DATA_BLOCKS ++
      List.replicate (MAX_DATA_BLOCKS - ino.blocks.length) 0 = ino.blocks := by
    rw [hlen, Nat.sub_self, List.replicate_zero, List.append_nil, ← hlen, List.take_length]
  unfold decodeInode encodeInode
  rw [htake]
  show (⟨_, _, _⟩ : Inode) = ⟨ino.magic, ino.size, ino.blocks⟩
  rw [Inode.mk.injEq]
  refine ⟨?_, ?_, ?_⟩
  · rw [List.append_assoc, decode32_le32]
    exact Nat.mod_eq_of_lt hm
  · rw [List.append_assoc, decode32_at_four, decode32_le32]
    exact Nat.mod_eq_of_lt hs
  · rw [List.append_assoc, drop_eight _ _ _ (le32_length _) (le32_length _)]
    apply List.ext_getElem
    · rw [List.length_map, List.length_range, hlen]
    intro i h1 h2
    rw [List.length_map, List.length_range] at h1
    rw [List.getElem_map, List.getElem_range]
    have hib : i < ino.blocks.length := by rw [hlen]; exact h1
    have hle : 4 * i ≤ (ino.blocks.flatMap le32).length := by
      rw [flatMap_length_const _ _ 4 (fun a _ => le32_length a), hlen]
      simp only [MAX_DATA_BLOCKS] at h1 ⊢
      omega
    rw [flatMap_const_drop le32 _ le32_length i ino.blocks,
      List.drop_eq_getElem_cons hib, List.flatMap_cons, decode32_le32]
    exact Nat.mod_eq_of_lt (hbl _ (List.getElem_mem hib))


theorem decodeDir_WF (bytes : List Nat) (h : bytes.length = BLOCK_SIZE) :
    DirWF (decodeDir bytes) := by
  refine ⟨decode32_lt _ _, decode32_lt _ _, by simp [decodeDir], ?_⟩
  intro e he
  simp only [decodeDir, List.mem_map, List.mem_range] at he
  obtain ⟨i, hi, rfl⟩ := he
  constructor
  · simp only [decodeEntry]
    rw [List.length_take, List.length_drop, List.length_drop, h]
    simp only [MAX_FNAME_SIZE, BLOCK_SIZE, MAX_DIR_ENTRIES] at hi ⊢
    omega
  · exact decode32_lt _ _

theorem cname_strcpyName (old name : List Nat) (h0 : 0 ∉ name)
    (hlen : name.length ≤ MAX_FNAME_SIZE) :
    cname (strcpyName old name) = name := by
  unfold cname strcpyName
  obtain ⟨k, hk⟩ : ∃ k, MAX_FNAME_SIZE + 1 - name.length = k + 1 :=
    ⟨MAX_FNAME_SIZE - name.length, by omega⟩
  rw [show MAX_FNAME_SIZE + 1 = name.length + (MAX_FNAME_SIZE + 1 - name.length) by omega,
    List.take_append, hk, List.take_succ_cons]
  have hname : name.takeWhile (fun b => decide (b ≠ 0)) = name :=
    List.takeWhile_eq_self_iff.mpr (fun x hx => by
      simp only [decide_eq_true_eq]
      intro hx0
      exact h0 (hx0 ▸ hx))
  rw [List.takeWhile_append, hname, if_pos rfl, List.takeWhile_cons]
  simp

theorem find?_set_of_none {α : Type} (p : α → Bool) (l : List α) (i : Nat) (v : α)
    (hnone : l.find? p = none) (hi : i < l.length) (hv : p v = true) :
    (l.set i v).find? p = some v := by
  induction l generalizing i with
  | nil => simp at hi
  | cons a t ih =>
      have hna : p a = false := by
        have := List.find?_eq_none.mp hnone a (List.mem_cons_self a t)
        simp only [Bool.not_eq_true] at this
        exact this
      have hnt : t.find? p = none := by
        rw [List.find?_cons, hna] at hnone
        exact hnone
      cases i with
      | zero =>
          rw [List.set_cons_zero, List.find?_cons, hv]
      | succ n =>
          rw [List.set_cons_succ, List.find?_cons, hna]
          exact ih n hnt (by simpa using hi)

theorem InsertIntoDirectory_success_eq (dir : DirBlock) (h : Nat) (name : List Nat)
    (hnodup : findEntry dir name = none)
    (hfull : dir.num_entries < MAX_DIR_ENTRIES)
    (hname : name.length ≤ MAX_FNAME_SIZE)
    {i : Nat}
    (hidx : dir.dir_entries.findIdx? (fun e => e.block_num == kInvalidHandle) = some i) :
    InsertIntoDirectory dir h name =
      ({dir with
          num_entries := (dir.num_entries + 1) % 4294967296,
          dir_entries := dir.dir_entries.set i
            ⟨strcpyName (dir.dir_entries.getD i ⟨[], 0⟩).name name, h⟩}, true, none) := by
  unfold InsertIntoDirectory
  rw [hnodup]
  simp only [Option.isSome_none, Bool.false_eq_true, if_false]
  rw [if_neg (Nat.not_le.mpr hfull), if_neg (Nat.not_lt.mpr hname), hidx]

theorem MakeBlock_success_eq (s : State) (initB name : List Nat)
    (h0 : (get_free_block s.bitmap).1 ≠ kInvalidHandle)
    (dir1 : DirBlock)
    (hins : InsertIntoDirectory (decodeDir (readBlock s.disk s.curDir))
      (get_free_block s.bitmap).1 name = (dir1, true, none)) :
    MakeBlock s initB name =
      {s with
        bitmap := (get_free_block s.bitmap).2,
        disk := writeBlock (writeBlock s.disk (get_free_block s.bitmap).1 initB)
          s.curDir (encodeDir dir1)} := by
  simp only [MakeBlock]
  rw [if_neg h0, hins]

theorem allocBlocks_success : ∀ (n : Nat) (bm : List Bool),
    (allocBlocks n bm).2.2 = true →
    (allocBlocks n bm).1.length = n ∧
    (allocBlocks n bm).1.Nodup ∧
    (∀ h ∈ (allocBlocks n bm).1, 2 ≤ h ∧ h < bm.length) ∧
    (∀ b, bm.getD b false = true → b ∉ (allocBlocks n bm).1) := by
  intro n
  induction n with
  | zero =>
      intro bm _
      exact ⟨rfl, List.nodup_nil, by simp [allocBlocks], by simp [allocBlocks]⟩
  | succ n ih =>
      intro bm h
      simp only [allocBlocks] at h ⊢
      by_cases h0 : (get_free_block bm).1 = kInvalidHandle
      · rw [if_pos h0] at h
        cases h
      · rw [if_neg h0] at h ⊢
        have h' : (allocBlocks n (get_free_block bm).2).2.2 = true := h
        obtain ⟨h2, hlt, hfree, hset⟩ := get_free_block_nonzero h0
        obtain ⟨ihlen, ihnd, ihb, ihavoid⟩ := ih _ h'
        have hlen2 : (get_free_block bm).2.length = bm.length := by
          rw [hset, List.length_set]
        have hg1 : (get_free_block bm).1 ∉ (allocBlocks n (get_free_block bm).2).1 := by
          apply ihavoid
          rw [hset]
          rw [List.getD_eq_getElem _ _ (by rw [List.length_set]; exact hlt)]
          rw [List.getElem_set_self (by rw [List.length_set]; exact hlt)]
        refine ⟨by simp [ihlen], List.nodup_cons.mpr ⟨hg1, ihnd⟩, ?_, ?_⟩
        · intro x hx
          rcases List.mem_cons.mp hx with rfl | hx'
          · exact ⟨h2, hlt⟩
          · have := ihb x hx'
            omega
        · intro b hb
          have hbne : b ≠ (get_free_block bm).1 := by
            intro heq
            obtain ⟨hblt, hbt⟩ := getD_true_lt bm b hb
            rw [heq, hfree] at hbt
            cases hbt
          have hb2 : (get_free_block bm).2.getD b false = true := by
            rw [hset, getD_set_ne _ _ _ (fun heq => hbne heq.symm)]
            exact hb
          intro hmem
          rcases List.mem_cons.mp hmem with rfl | hmem'
          · exact hbne rfl
          · exact ihavoid b hb2 hmem'

theorem assignGo_zeros : ∀ (hs : List Nat) (blocks : List Nat) (i rem : Nat),
    (∀ j, j < hs.length → blocks.getD (i + j) 0 = 0) →
    hs.length ≤ rem →
    i + hs.length ≤ blocks.length →
    (∀ j, (assignGo blocks i hs rem).getD j 0 =
      if i ≤ j ∧ j < i + hs.length then hs.getD (j - i) 0 else blocks.getD j 0) ∧
    (assignGo blocks i hs rem).length = blocks.length := by
  intro hs
  induction hs with
  | nil =>
      intro blocks i rem _ _ _
      constructor
      · intro j
        simp only [assignGo, List.length_nil, Nat.add_zero]
        rw [if_neg (by omega)]
      · simp only [assignGo]
  | cons h t ih =>
      intro blocks i rem hz hrem hlen
      obtain ⟨r, rfl⟩ : ∃ r, rem = r + 1 := ⟨rem - 1, by simp at hrem ⊢; omega⟩
      have hbi : blocks.getD i 0 = 0 := by
        have := hz 0 (by simp)
        simpa using this
      simp only [assignGo, hbi, kInvalidHandle, eq_self_iff_true, if_true]
      have hilen : i < blocks.length := by simp at hlen; omega
      have hz' : ∀ j, j < t.length → (blocks.set i h).getD (i + 1 + j) 0 = 0 := by
        intro j hj
        rw [getD_set_ne _ _ _ (by omega)]
        have := hz (j + 1) (by simp; omega)
        rw [show i + (j + 1) = i + 1 + j by omega] at this
        exact this
      have hrem' : t.length ≤ r := by simp at hrem; omega
      have hlen' : i + 1 + t.length ≤ (blocks.set i h).length := by
        rw [List.length_set]
        simp at hlen
        omega
      obtain ⟨ihg, ihl⟩ := ih (blocks.set i h) (i + 1) r hz' hrem' hlen'
      constructor
      · intro j
        rw [ihg j]
        by_cases hj1 : i + 1 ≤ j ∧ j < i + 1 + t.length
        · rw [if_pos hj1, if_pos (by simp; omega)]
          rw [show j - i = (j - (i + 1)) + 1 by omega]
          simp [List.getD_cons_succ]
        · rw [if_neg hj1]
          by_cases hj2 : j = i
          · subst hj2
            rw [if_pos (by simp)]
            rw [getD_set_self _ _ _ _ hilen]
            simp
          · rw [if_neg (by simp; omega), getD_set_ne _ _ _ (fun heq => hj2 heq.symm)]
      · rw [ihl, List.length_set]

theorem nodup_getD_ne (l : List Nat) (hnd : l.Nodup) {i j : Nat} (hi : i < l.length)
    (hj : j < l.length) (hij : i ≠ j) : l.getD i 0 ≠ l.getD j 0 := by
  rw [List.getD_eq_getElem _ _ hi, List.getD_eq_getElem _ _ hj]
  intro heq
  have : (⟨i, hi⟩ : Fin l.length) = ⟨j, hj⟩ := by
    rw [← hnd.get_inj_iff]
    simpa [List.get_eq_getElem] using heq
  exact hij (by simpa using this)

theorem readBlock_writeBlock_ne (d : List (List Nat)) (h b : Nat) (blk : List Nat)
    (hne : b ≠ h) : readBlock (writeBlock d h blk) b = readBlock d b := by
  unfold readBlock writeBlock
  rw [getD_set_ne _ _ _ (fun heq => hne heq.symm)]

theorem getD_writeBlock_self (d : List (List Nat)) (h : Nat) (blk : List Nat)
    (hh : h < d.length) : (writeBlock d h blk).getD h [] = blk := by
  unfold writeBlock
  rw [getD_set_self _ _ _ _ hh]

theorem take_eq_map_range_getD (l : List Nat) (m : Nat) (hm : m ≤ l.length) :
    l.take m = (List.range m).map (fun i => l.getD i 0) := by
  apply List.ext_getElem
  · simp [hm]
  intro i h1 h2
  rw [List.getElem_take, List.getElem_map, List.getElem_range,
    List.getD_eq_getElem _ _ (by rw [List.length_take] at h1; omega)]

theorem list_eq_map_range (l : List Nat) :
    l = (List.range l.length).map (fun i => l.getD i 0) := by
  conv_lhs => rw [← List.take_length l]
  rw [take_eq_map_range_getD l l.length (le_refl _)]

theorem getD_drop_one (l : List Nat) (i : Nat) :
    (l.drop 1).getD i 0 = l.getD (1 + i) 0 := by
  simp only [List.getD_eq_getElem?_getD, List.getElem?_drop]

theorem dropTrailing_append_newline (D : List Nat) (h : D.getLast? ≠ some 10) :
    dropTrailingNewlines (D ++ [10]) = D := by
  unfold dropTrailingNewlines
  rw [List.reverse_append]
  simp only [List.reverse_cons, List.reverse_nil, List.nil_append, List.singleton_append]
  rw [List.dropWhile_cons]
  simp only [beq_self_eq_true, if_true]
  cases hD : D.reverse with
  | nil =>
      have hDnil : D = [] := by simpa using congrArg List.reverse hD
      simp [hDnil]
  | cons a t =>
      have ha : (a == 10) = false := by
        have hlast : D.getLast? = some a := by
          rw [List.getLast?_eq_head?_reverse, hD]
          rfl
        simp only [beq_eq_false_iff_ne, ne_eq]
        intro h10
        exact h (by rw [hlast, h10])
      rw [List.dropWhile_cons, ha]
      simp only [Bool.false_eq_true, if_false]
      rw [← hD, List.reverse_reverse]

theorem headBytes_as_map_aux : ∀ (k : Nat) (bl : List Nat) (d : List (List Nat)) (r : Nat),
    r < BLOCK_SIZE →
    ((List.range (k + 1)).flatMap fun i =>
      if i = k then (readBlock d (bl.getD i 0)).take r
      else (readBlock d (bl.getD i 0)).take BLOCK_SIZE) =
    (List.range (k * BLOCK_SIZE + r)).map
      (fun p => (readBlock d (bl.getD (p / BLOCK_SIZE) 0)).getD (p % BLOCK_SIZE) 0) := by
  intro k
  induction k with
  | zero =>
      intro bl d r hr
      simp only [Nat.zero_add, List.range_succ, List.range_zero, List.nil_append,
        List.flatMap_cons, List.flatMap_nil, List.append_nil, if_pos rfl, Nat.zero_mul]
      rw [take_eq_map_range_getD (readBlock d (bl.getD 0 0)) r
        (by rw [readBlock_length]; omega)]
      apply List.map_congr_left
      intro p hp
      rw [List.mem_range] at hp
      rw [Nat.div_eq_of_lt (by omega), Nat.mod_eq_of_lt (by omega)]
  | succ k ihk =>
      intro bl d r hr
      rw [List.range_succ_eq_map, List.flatMap_cons, List.flatMap_map]
      have hb0 : (if (0 : Nat) = k + 1 then (readBlock d (bl.getD 0 0)).take r
          else (readBlock d (bl.getD 0 0)).take BLOCK_SIZE) =
          (readBlock d (bl.getD 0 0)).take BLOCK_SIZE := if_neg (by omega)
      rw [hb0]
      have hfun : (fun a => if a.succ = k + 1 then (readBlock d (bl.getD a.succ 0)).take r
          else (readBlock d (bl.getD a.succ 0)).take BLOCK_SIZE) =
          (fun a => if a = k then (readBlock d ((bl.drop 1).getD a 0)).take r
          else (readBlock d ((bl.drop 1).getD a 0)).take BLOCK_SIZE) := by
        funext a
        rw [getD_drop_one, show 1 + a = a.succ by omega]
        by_cases hak : a = k
        · rw [if_pos hak, if_pos (by omega)]
        · rw [if_neg hak, if_neg (by omega)]
      rw [hfun, ihk (bl.drop 1) d r hr,
        show (k + 1) * BLOCK_SIZE + r = BLOCK_SIZE + (k * BLOCK_SIZE + r) by ring]
      conv_rhs => rw [List.range_add, List.map_append, List.map_map]
      congr 1
      · rw [take_eq_map_range_getD (readBlock d (bl.getD 0 0)) BLOCK_SIZE
          (by rw [readBlock_length])]
        apply List.map_congr_left
        intro p hp
        rw [List.mem_range] at hp
        rw [Nat.div_eq_of_lt hp, Nat.mod_eq_of_lt hp]
      · apply List.map_congr_left
        intro p hp
        simp only [Function.comp_apply]
        have hdiv : (BLOCK_SIZE + p) / BLOCK_SIZE = p / BLOCK_SIZE + 1 := by
          rw [Nat.add_comm, Nat.add_div_right _ (by decide)]
        have hmod : (BLOCK_SIZE + p) % BLOCK_SIZE = p % BLOCK_SIZE :=
          Nat.add_mod_left _ _
        rw [hdiv, hmod, getD_drop_one, Nat.add_comm (p / BLOCK_SIZE) 1]

theorem headBytes_as_map (d : List (List Nat)) (ino : Inode) (sz : Nat) :
    headBytes d ino sz = (List.range sz).map
      (fun p => (readBlock d (ino.blocks.getD (p / BLOCK_SIZE) 0)).getD (p % BLOCK_SIZE) 0) := by
  have hsz : sz / BLOCK_SIZE * BLOCK_SIZE + sz % BLOCK_SIZE = sz := Nat.div_add_mod' _ _
  have haux := headBytes_as_map_aux (sz / BLOCK_SIZE) ino.blocks d (sz % BLOCK_SIZE)
    (Nat.mod_lt _ (by decide))
  rw [hsz] at haux
  exact haux

theorem copyData_spec : ∀ (data : List Nat) (d : List (List Nat)) (ino : Inode),
    (∀ p, ino.size ≤ p → p < ino.size + data.length →
      ino.blocks.getD (p / BLOCK_SIZE) 0 < d.length) →
    (∀ p q, ino.size ≤ p → p < q → q < ino.size + data.length →
      p / BLOCK_SIZE ≠ q / BLOCK_SIZE →
      ino.blocks.getD (p / BLOCK_SIZE) 0 ≠ ino.blocks.getD (q / BLOCK_SIZE) 0) →
    (copyData d ino data).2 = {ino with size := ino.size + data.length} ∧
    (copyData d ino data).1.length = d.length ∧
    (∀ b, (∀ p, ino.size ≤ p → p < ino.size + data.length →
        b ≠ ino.blocks.getD (p / BLOCK_SIZE) 0) →
      (copyData d ino data).1.getD b [] = d.getD b []) ∧
    (∀ b off, off < BLOCK_SIZE →
      (∀ p, ino.size ≤ p → p < ino.size + data.length →
        ¬(b = ino.blocks.getD (p / BLOCK_SIZE) 0 ∧ off = p % BLOCK_SIZE)) →
      (readBlock (copyData d ino data).1 b).getD off 0 =
        (readBlock d b).getD off 0) ∧
    (∀ i, i < data.length →
      (readBlock (copyData d ino data).1
          (ino.blocks.getD ((ino.size + i) / BLOCK_SIZE) 0)).getD
        ((ino.size + i) % BLOCK_SIZE) 0 = data.getD i 0) := by
  intro data
  induction data with
  | nil =>
      intro d ino _ _
      refine ⟨?_, rfl, fun b _ => rfl, fun b off _ _ => rfl, fun i hi => by simp at hi⟩
      show ino = {ino with size := ino.size + 0}
      simp
  | cons b0 rest ih =>
      intro d ino hval hdisj
      obtain ⟨m, s, bl⟩ := ino
      simp only at hval hdisj ⊢
      have hh0lt : bl.getD (s / BLOCK_SIZE) 0 < d.length := by
        have := hval s (le_refl _) (by simp)
        simpa using this
      have hcd : copyData d ⟨m, s, bl⟩ (b0 :: rest) =
          copyData (writeBlock d (bl.getD (s / BLOCK_SIZE) 0)
              ((readBlock d (bl.getD (s / BLOCK_SIZE) 0)).set (s % BLOCK_SIZE) b0))
            ⟨m, s + 1, bl⟩ rest := rfl
      have hd1len : (writeBlock d (bl.getD (s / BLOCK_SIZE) 0)
          ((readBlock d (bl.getD (s / BLOCK_SIZE) 0)).set (s % BLOCK_SIZE) b0)).length =
          d.length := by
        simp [writeBlock]
      have hval1 : ∀ p, (⟨m, s + 1, bl⟩ : Inode).size ≤ p →
          p < (⟨m, s + 1, bl⟩ : Inode).size + rest.length →
          (⟨m, s + 1, bl⟩ : Inode).blocks.getD (p / BLOCK_SIZE) 0 <
            (writeBlock d (bl.getD (s / BLOCK_SIZE) 0)
              ((readBlock d (bl.getD (s / BLOCK_SIZE) 0)).set (s % BLOCK_SIZE) b0)).length := by
        intro p hp1 hp2
        simp only at hp1 hp2 ⊢
        rw [hd1len]
        exact hval p (by omega) (by simp; omega)
      have hdisj1 : ∀ p q, (⟨m, s + 1, bl⟩ : Inode).size ≤ p → p < q →
          q < (⟨m, s + 1, bl⟩ : Inode).size + rest.length →
          p / BLOCK_SIZE ≠ q / BLOCK_SIZE →
          (⟨m, s + 1, bl⟩ : Inode).blocks.getD (p / BLOCK_SIZE) 0 ≠
            (⟨m, s + 1, bl⟩ : Inode).blocks.getD (q / BLOCK_SIZE) 0 := by
        intro p q hp hq1 hq2 hpq
        simp only at hp hq2 ⊢
        exact hdisj p q (by omega) hq1 (by simp; omega) hpq
      obtain ⟨ih1, ih2, ih3, ih4, ih5⟩ := ih _ _ hval1 hdisj1
      refine ⟨?_, ?_, ?_, ?_, ?_⟩
      · rw [hcd, ih1]
        simp only [List.length_cons]
        rw [show s + 1 + rest.length = s + (rest.length + 1) by omega]
      · rw [hcd, ih2, hd1len]
      · intro b hb
        rw [hcd, ih3 b (fun p hp1 hp2 => by
          have hp1' : s + 1 ≤ p := hp1
          have hp2' : p < s + 1 + rest.length := hp2
          exact hb p (by omega) (by simp; omega))]
        unfold writeBlock
        rw [getD_set_ne _ _ _ ?hne]
        case hne =>
          have := hb s (le_refl _) (by simp)
          exact fun heq => this heq.symm
      · intro b off hoff havoid
        rw [hcd, ih4 b off hoff (fun p hp1 hp2 => by
          have hp1' : s + 1 ≤ p := hp1
          have hp2' : p < s + 1 + rest.length := hp2
          exact havoid p (by omega) (by simp; omega))]
        by_cases hbh : b = bl.getD (s / BLOCK_SIZE) 0
        · subst hbh
          have hoffne : off ≠ s % BLOCK_SIZE := by
            have := havoid s (le_refl _) (by simp)
            intro heq
            exact this ⟨rfl, heq⟩
          unfold readBlock writeBlock
          rw [getD_set_self _ _ _ _ hh0lt]
          rw [padTo_eq_self _ _ (by rw [List.length_set, padTo_length])]
          rw [getD_set_ne _ _ _ (fun heq => hoffne heq.symm)]
        · rw [readBlock_writeBlock_ne _ _ _ _ hbh]
      · intro i hi
        cases i with
        | zero =>
            have havoid0 : ∀ p, s + 1 ≤ p → p < s + 1 + rest.length →
                ¬(bl.getD (s / BLOCK_SIZE) 0 = bl.getD (p / BLOCK_SIZE) 0 ∧
                  s % BLOCK_SIZE = p % BLOCK_SIZE) := by
              intro p hp1 hp2 ⟨he, hm'⟩
              by_cases hdiv : p / BLOCK_SIZE = s / BLOCK_SIZE
              · simp only [BLOCK_SIZE] at hdiv hm'
                omega
              · exact hdisj s p (le_refl _) (by omega) (by simp; omega)
                  (fun heq => hdiv heq.symm) he
            rw [hcd]
            have h4 := ih4 (bl.getD (s / BLOCK_SIZE) 0) (s % BLOCK_SIZE)
              (Nat.mod_lt _ (by decide)) havoid0
            simp only [Nat.add_zero]
            rw [h4]
            unfold readBlock writeBlock
            rw [getD_set_self _ _ _ _ hh0lt]
            rw [padTo_eq_self _ _ (by rw [List.length_set, padTo_length])]
            rw [getD_set_self _ _ _ _ (by rw [padTo_length]; exact Nat.mod_lt _ (by decide))]
            rfl
        | succ i' =>
            rw [hcd, show s + (i' + 1) = s + 1 + i' by omega]
            have := ih5 i' (by simp at hi; omega)
            simp only at this
            rw [this]
            simp
theorem getD_replicate_zero (n j : Nat) : (List.replicate n (0 : Nat)).getD j 0 = 0 := by
  simp only [List.getD_eq_getElem?_getD, List.getElem?_replicate]
  split_ifs <;> rfl

theorem strcpyName_length (old name : List Nat) (hold : old.length = MAX_FNAME_SIZE + 1)
    (hn : name.length ≤ MAX_FNAME_SIZE) : (strcpyName old name).length = MAX_FNAME_SIZE + 1 := by
  unfold strcpyName
  rw [List.length_take, List.length_append, List.length_cons, List.length_drop, hold]
  omega

theorem numAllocBlocks_empty (L : Nat) (hL : 0 < L) :
    numAllocBlocks ⟨INODE_MAGIC_NUM, 0, List.replicate MAX_DATA_BLOCKS 0⟩ L =
      (L + (BLOCK_SIZE - 1)) / BLOCK_SIZE := by
  unfold numAllocBlocks
  simp only [getD_replicate_zero, kInvalidHandle]
  simp only [BLOCK_SIZE]
  norm_num
  split_ifs <;> omega

theorem append_success_eq (s : State) (name data : List Nat) (e : DirEntry)
    (hd : data ≠ [])
    (hdir : (decodeDir (readBlock s.disk s.curDir)).magic = DIR_MAGIC_NUM)
    (hfind : findEntry (decodeDir (readBlock s.disk s.curDir)) name = some e)
    (hino : (decodeInode (readBlock s.disk e.block_num)).magic = INODE_MAGIC_NUM)
    (hsz : ¬((MAX_FILE_SIZE + 18446744073709551616 -
      (decodeInode (readBlock s.disk e.block_num)).size) % 18446744073709551616 < data.length))
    (hok : (allocBlocks (numAllocBlocks (decodeInode (readBlock s.disk e.block_num))
      data.length) s.bitmap).2.2 = true) :
    append s name data =
      {s with
        bitmap := (allocBlocks (numAllocBlocks (decodeInode (readBlock s.disk e.block_num))
          data.length) s.bitmap).2.1,
        disk := writeBlock
          (copyData s.disk (assignHandles (decodeInode (readBlock s.disk e.block_num))
            (allocBlocks (numAllocBlocks (decodeInode (readBlock s.disk e.block_num))
              data.length) s.bitmap).1) data).1
          e.block_num
          (encodeInode (copyData s.disk
            (assignHandles (decodeInode (readBlock s.disk e.block_num))
              (allocBlocks (numAllocBlocks (decodeInode (readBlock s.disk e.block_num))
                data.length) s.bitmap).1) data).2)} := by
  simp only [append, hd, if_neg, ReadDirBlock_ok _ _ hdir, hfind, ReadINodeBlock_ok _ _ hino,
    Bool.not_true, Bool.false_eq_true, if_false, if_neg hsz, hok, Bool.not_false, if_true]

theorem head_success_eq (s : State) (name : List Nat) (n : Nat) (e : DirEntry)
    (hdir : (decodeDir (readBlock s.disk s.curDir)).magic = DIR_MAGIC_NUM)
    (hfind : findEntry (decodeDir (readBlock s.disk s.curDir)) name = some e)
    (hino : (decodeInode (readBlock s.disk e.block_num)).magic = INODE_MAGIC_NUM)
    (hnz : (decodeInode (readBlock s.disk e.block_num)).size ≠ 0) :
    head s name n = {s with response := (s.response ++
      headBytes s.disk (decodeInode (readBlock s.disk e.block_num))
        (if n < (decodeInode (readBlock s.disk e.block_num)).size then n
          else (decodeInode (readBlock s.disk e.block_num)).size) ++ [10])} := by
  simp only [head, ReadDirBlock_ok _ _ hdir, hfind, ReadINodeBlock_ok _ _ hino, Bool.not_true,
    Bool.false_eq_true, if_false, if_neg hnz]


/-- The handle list the `append` allocation loop produces for data `D` on
state `s1` through the entry `e`. -/
def c3Handles (s1 : State) (D : List Nat) (e : DirEntry) : List Nat :=
  (allocBlocks (numAllocBlocks (decodeInode (readBlock s1.disk e.block_num))
    D.length) s1.bitmap).1

/-- The inode block table after `assignHandles` fills the empty inode with
those handles. -/
def c3Blocks (s1 : State) (D : List Nat) (e : DirEntry) : List Nat :=
  assignGo (List.replicate MAX_DATA_BLOCKS 0) 0 (c3Handles s1 D e).reverse MAX_DATA_BLOCKS

/-- The filled, still size-0 inode. -/
def c3Inode (s1 : State) (D : List Nat) (e : DirEntry) : Inode :=
  ⟨INODE_MAGIC_NUM, 0, c3Blocks s1 D e⟩

/-- The disk after a successful `append` of `D` to the empty file behind
entry `e`: the copied-in data plus the rewritten inode block. -/
def c3Disk (s1 : State) (D : List Nat) (e : DirEntry) : List (List Nat) :=
  writeBlock (copyData s1.disk (c3Inode s1 D e) D).1 e.block_num
    (encodeInode (copyData s1.disk (c3Inode s1 D e) D).2)

/-- Core of the C3 roundtrip: on a state whose current directory already
holds entry `e` for an empty file, `append` then `cat` produces the wire
body `D ++ [10]` whenever `D` is non-empty, fits in a file, does not end
in a newline, and enough blocks are free. -/
theorem append_cat_empty_file (s1 : State) (f D : List Nat) (e : DirEntry)
    (hblen : s1.bitmap.length = NUM_BLOCKS)
    (hdlen : s1.disk.length = NUM_BLOCKS)
    (hresp : s1.response = [])
    (hdirm : (decodeDir (readBlock s1.disk s1.curDir)).magic = DIR_MAGIC_NUM)
    (hfind : findEntry (decodeDir (readBlock s1.disk s1.curDir)) f = some e)
    (hino : decodeInode (readBlock s1.disk e.block_num) =
      ⟨INODE_MAGIC_NUM, 0, List.replicate MAX_DATA_BLOCKS 0⟩)
    (hcurbit : s1.bitmap.getD s1.curDir false = true)
    (hebit : s1.bitmap.getD e.block_num false = true)
    (hD : 0 < D.length) (hDmax : D.length ≤ MAX_FILE_SIZE)
    (hok : (allocBlocks ((D.length + (BLOCK_SIZE - 1)) / BLOCK_SIZE) s1.bitmap).2.2 = true)
    (hlast : D.getLast? ≠ some 10) :
    (getQueryResponse (cat (append s1 f D) f)).1 = D ++ [10] := by
  have hDne : D ≠ [] := by
    intro h
    rw [h] at hD
    simp at hD
  have hinom : (decodeInode (readBlock s1.disk e.block_num)).magic = INODE_MAGIC_NUM := by
    rw [hino]
  have hne_ecur : e.block_num ≠ s1.curDir := by
    intro heq
    rw [heq] at hinom
    have hsame : (decodeDir (readBlock s1.disk s1.curDir)).magic =
        (decodeInode (readBlock s1.disk s1.curDir)).magic := rfl
    rw [hdirm, hinom] at hsame
    simp [DIR_MAGIC_NUM, INODE_MAGIC_NUM] at hsame
  -- the allocation count for an empty file
  have hnum : numAllocBlocks (decodeInode (readBlock s1.disk e.block_num)) D.length =
      (D.length + (BLOCK_SIZE - 1)) / BLOCK_SIZE := by
    rw [hino]
    exact numAllocBlocks_empty _ hD
  have hszok : ¬((MAX_FILE_SIZE + 18446744073709551616 -
      (decodeInode (readBlock s1.disk e.block_num)).size) % 18446744073709551616 <
      D.length) := by
    rw [hino]
    show ¬((MAX_FILE_SIZE + 18446744073709551616 - 0) % 18446744073709551616 < D.length)
    have h3840 : (MAX_FILE_SIZE + 18446744073709551616 - 0) % 18446744073709551616 =
        MAX_FILE_SIZE := by decide
    rw [h3840]
    omega
  have hok2 : (allocBlocks (numAllocBlocks (decodeInode (readBlock s1.disk e.block_num))
      D.length) s1.bitmap).2.2 = true := by
    rw [hnum]
    exact hok
  -- the allocated handles
  obtain ⟨hklen, hknd, hkb, hkavoid⟩ := allocBlocks_success _ _ hok2
  have hklen2 : (c3Handles s1 D e).length = (D.length + (BLOCK_SIZE - 1)) / BLOCK_SIZE := by
    show (allocBlocks (numAllocBlocks (decodeInode (readBlock s1.disk e.block_num))
      D.length) s1.bitmap).1.length = _
    rw [hklen, hnum]
  have hknd2 : (c3Handles s1 D e).Nodup := hknd
  have hkb2 : ∀ h ∈ c3Handles s1 D e, 2 ≤ h ∧ h < s1.bitmap.length := hkb
  have hcur_notin : s1.curDir ∉ c3Handles s1 D e := hkavoid _ hcurbit
  have he_notin : e.block_num ∉ c3Handles s1 D e := hkavoid _ hebit
  have hKle : (D.length + (BLOCK_SIZE - 1)) / BLOCK_SIZE ≤ MAX_DATA_BLOCKS := by
    simp only [MAX_FILE_SIZE, MAX_DATA_BLOCKS, BLOCK_SIZE] at hDmax ⊢
    omega
  have hkrevlen : (c3Handles s1 D e).reverse.length =
      (D.length + (BLOCK_SIZE - 1)) / BLOCK_SIZE := by
    rw [List.length_reverse, hklen2]
  -- the assigned inode block list
  obtain ⟨hbg, hbglen⟩ := assignGo_zeros (c3Handles s1 D e).reverse
    (List.replicate MAX_DATA_BLOCKS 0) 0 MAX_DATA_BLOCKS
    (fun j _ => getD_replicate_zero _ _)
    (by rw [hkrevlen]; exact hKle)
    (by rw [hkrevlen, List.length_replicate]; simpa using hKle)
  have hbg' : ∀ j, j < (D.length + (BLOCK_SIZE - 1)) / BLOCK_SIZE →
      (c3Blocks s1 D e).getD j 0 = (c3Handles s1 D e).reverse.getD j 0 := by
    intro j hj
    show (assignGo (List.replicate MAX_DATA_BLOCKS 0) 0 (c3Handles s1 D e).reverse
      MAX_DATA_BLOCKS).getD j 0 = _
    have hcond : 0 ≤ j ∧ j < 0 + (c3Handles s1 D e).reverse.length := by
      refine ⟨Nat.zero_le j, ?_⟩
      rw [Nat.zero_add, hkrevlen]
      exact hj
    rw [hbg j, if_pos hcond, Nat.sub_zero]
  have hbg0 : ∀ j, ¬(j < (D.length + (BLOCK_SIZE - 1)) / BLOCK_SIZE) →
      (c3Blocks s1 D e).getD j 0 = 0 := by
    intro j hj
    show (assignGo (List.replicate MAX_DATA_BLOCKS 0) 0 (c3Handles s1 D e).reverse
      MAX_DATA_BLOCKS).getD j 0 = 0
    have hcond : ¬(0 ≤ j ∧ j < 0 + (c3Handles s1 D e).reverse.length) := by
      rw [Nat.zero_add, hkrevlen]
      intro hc
      exact hj hc.2
    rw [hbg j, if_neg hcond, getD_replicate_zero]
  have hbglen2 : (c3Blocks s1 D e).length = MAX_DATA_BLOCKS := by
    show (assignGo (List.replicate MAX_DATA_BLOCKS 0) 0 (c3Handles s1 D e).reverse
      MAX_DATA_BLOCKS).length = _
    rw [hbglen, List.length_replicate]
  have hhandle_getD_mem : ∀ j, j < (D.length + (BLOCK_SIZE - 1)) / BLOCK_SIZE →
      (c3Handles s1 D e).reverse.getD j 0 ∈ c3Handles s1 D e := by
    intro j hj
    have hjlen : j < (c3Handles s1 D e).reverse.length := by
      rw [hkrevlen]
      exact hj
    rw [List.getD_eq_getElem _ _ hjlen]
    exact List.mem_reverse.mp (List.getElem_mem hjlen)
  have hposlt : ∀ p, p < D.length →
      p / BLOCK_SIZE < (D.length + (BLOCK_SIZE - 1)) / BLOCK_SIZE := by
    intro p hp
    simp only [BLOCK_SIZE]
    omega
  have hslotmem : ∀ p, p < D.length →
      (c3Blocks s1 D e).getD (p / BLOCK_SIZE) 0 ∈ c3Handles s1 D e := by
    intro p hp
    rw [hbg' _ (hposlt p hp)]
    exact hhandle_getD_mem _ (hposlt p hp)
  have hgetD_lt : ∀ j, (c3Blocks s1 D e).getD j 0 < 4294967296 := by
    intro j
    by_cases hj : j < (D.length + (BLOCK_SIZE - 1)) / BLOCK_SIZE
    · rw [hbg' j hj]
      have hb := hkb2 _ (hhandle_getD_mem j hj)
      rw [hblen] at hb
      exact Nat.lt_trans hb.2 (by decide)
    · rw [hbg0 j hj]
      decide
  have hblocks_lt : ∀ b ∈ c3Blocks s1 D e, b < 4294967296 := by
    intro b hb
    obtain ⟨j, hjl, hjb⟩ := List.mem_iff_getElem.mp hb
    rw [← hjb, ← List.getD_eq_getElem (c3Blocks s1 D e) 0 hjl]
    exact hgetD_lt j
  have he_ltN : e.block_num < NUM_BLOCKS := by
    have h := (getD_true_lt s1.bitmap e.block_num hebit).1
    rw [hblen] at h
    exact h
  -- copyData specification at the filled inode
  obtain ⟨hc1, hc2, hc3, _, hc5⟩ := copyData_spec D s1.disk (c3Inode s1 D e)
    (by
      intro p _ hp2
      have hp2' : p < 0 + D.length := hp2
      have hplt : p < D.length := by omega
      show (c3Blocks s1 D e).getD (p / BLOCK_SIZE) 0 < s1.disk.length
      rw [hbg' _ (hposlt p hplt)]
      have hb := hkb2 _ (hhandle_getD_mem _ (hposlt p hplt))
      rw [hblen] at hb
      rw [hdlen]
      exact hb.2)
    (by
      intro p q _ hpq hq2 hne
      have hq2' : q < 0 + D.length := hq2
      have hqlt : q < D.length := by omega
      have hplt : p < D.length := by omega
      show (c3Blocks s1 D e).getD (p / BLOCK_SIZE) 0 ≠
        (c3Blocks s1 D e).getD (q / BLOCK_SIZE) 0
      rw [hbg' _ (hposlt p hplt), hbg' _ (hposlt q hqlt)]
      exact nodup_getD_ne _ (List.nodup_reverse.mpr hknd2)
        (by rw [hkrevlen]; exact hposlt p hplt)
        (by rw [hkrevlen]; exact hposlt q hqlt) hne)
  -- the append equation, folded onto the named abbreviations
  have hassign : assignHandles (decodeInode (readBlock s1.disk e.block_num))
      (allocBlocks (numAllocBlocks (decodeInode (readBlock s1.disk e.block_num))
        D.length) s1.bitmap).1 = c3Inode s1 D e := by
    have hgen : ∀ ino : Inode, ino = ⟨INODE_MAGIC_NUM, 0, List.replicate MAX_DATA_BLOCKS 0⟩ →
        assignHandles ino (c3Handles s1 D e) = c3Inode s1 D e := by
      intro ino hino'
      subst hino'
      rfl
    exact hgen _ hino
  have happ := append_success_eq s1 f D e hDne hdirm hfind hinom hszok hok2
  rw [hassign] at happ
  have happ2 : append s1 f D = {s1 with
      bitmap := (allocBlocks (numAllocBlocks (decodeInode (readBlock s1.disk e.block_num))
        D.length) s1.bitmap).2.1,
      disk := c3Disk s1 D e} := happ
  -- the inode after the byte copy
  have hino2 : (copyData s1.disk (c3Inode s1 D e) D).2 =
      ⟨INODE_MAGIC_NUM, D.length, c3Blocks s1 D e⟩ := by
    rw [hc1]
    simp [c3Inode]
  have hcp_len : (copyData s1.disk (c3Inode s1 D e) D).1.length = NUM_BLOCKS := by
    rw [hc2, hdlen]
  -- reading the inode block back
  have hrb_inode : readBlock (c3Disk s1 D e) e.block_num =
      encodeInode ⟨INODE_MAGIC_NUM, D.length, c3Blocks s1 D e⟩ := by
    show readBlock (writeBlock (copyData s1.disk (c3Inode s1 D e) D).1 e.block_num
      (encodeInode (copyData s1.disk (c3Inode s1 D e) D).2)) e.block_num = _
    unfold readBlock
    rw [getD_writeBlock_self _ _ _ (by rw [hcp_len]; exact he_ltN), hino2]
    exact padTo_eq_self _ _ (encodeInode_length _)
  have hsz32 : D.length < 4294967296 := by
    simp only [MAX_FILE_SIZE, MAX_DATA_BLOCKS, BLOCK_SIZE] at hDmax
    omega
  have hdec_inode : decodeInode (readBlock (c3Disk s1 D e) e.block_num) =
      ⟨INODE_MAGIC_NUM, D.length, c3Blocks s1 D e⟩ := by
    rw [hrb_inode]
    have hmg : INODE_MAGIC_NUM < 4294967296 := by decide
    exact decodeInode_encodeInode _ ⟨hmg, hsz32, hbglen2, hblocks_lt⟩
  -- reading the directory block back
  have hcp_cur : (copyData s1.disk (c3Inode s1 D e) D).1.getD s1.curDir [] =
      s1.disk.getD s1.curDir [] := by
    apply hc3
    intro p _ hp2
    have hp2' : p < 0 + D.length := hp2
    intro heq
    have heq' : s1.curDir = (c3Blocks s1 D e).getD (p / BLOCK_SIZE) 0 := heq
    have hmem := hslotmem p (by omega)
    rw [← heq'] at hmem
    exact hcur_notin hmem
  have hrb_cur : readBlock (c3Disk s1 D e) s1.curDir = readBlock s1.disk s1.curDir := by
    show readBlock (writeBlock (copyData s1.disk (c3Inode s1 D e) D).1 e.block_num
      (encodeInode (copyData s1.disk (c3Inode s1 D e) D).2)) s1.curDir = _
    rw [readBlock_writeBlock_ne _ _ _ _ (Ne.symm hne_ecur)]
    unfold readBlock
    rw [hcp_cur]
  -- head's preconditions on the post-append state
  have hdirX : (decodeDir (readBlock (c3Disk s1 D e) s1.curDir)).magic = DIR_MAGIC_NUM := by
    rw [hrb_cur]
    exact hdirm
  have hfindX : findEntry (decodeDir (readBlock (c3Disk s1 D e) s1.curDir)) f = some e := by
    rw [hrb_cur]
    exact hfind
  have hinoX : (decodeInode (readBlock (c3Disk s1 D e) e.block_num)).magic =
      INODE_MAGIC_NUM := by
    rw [hdec_inode]
  have hszX : (decodeInode (readBlock (c3Disk s1 D e) e.block_num)).size ≠ 0 := by
    rw [hdec_inode]
    show D.length ≠ 0
    omega
  have hif : (if MAX_FILE_SIZE < (⟨INODE_MAGIC_NUM, D.length, c3Blocks s1 D e⟩ : Inode).size
      then MAX_FILE_SIZE
      else (⟨INODE_MAGIC_NUM, D.length, c3Blocks s1 D e⟩ : Inode).size) = D.length := by
    have hnlt : ¬MAX_FILE_SIZE <
        (⟨INODE_MAGIC_NUM, D.length, c3Blocks s1 D e⟩ : Inode).size := by
      show ¬MAX_FILE_SIZE < D.length
      omega
    rw [if_neg hnlt]
  -- the emitted bytes are exactly D
  have hHB : headBytes (c3Disk s1 D e) ⟨INODE_MAGIC_NUM, D.length, c3Blocks s1 D e⟩
      D.length = D := by
    rw [headBytes_as_map]
    conv_rhs => rw [list_eq_map_range D]
    apply List.map_congr_left
    intro p hp
    rw [List.mem_range] at hp
    show (readBlock (writeBlock (copyData s1.disk (c3Inode s1 D e) D).1 e.block_num
      (encodeInode (copyData s1.disk (c3Inode s1 D e) D).2))
      ((c3Blocks s1 D e).getD (p / BLOCK_SIZE) 0)).getD (p % BLOCK_SIZE) 0 = D.getD p 0
    have hneq : (c3Blocks s1 D e).getD (p / BLOCK_SIZE) 0 ≠ e.block_num := by
      intro heq
      exact he_notin (heq ▸ hslotmem p hp)
    rw [readBlock_writeBlock_ne _ _ _ _ hneq]
    have h5' : (readBlock (copyData s1.disk (c3Inode s1 D e) D).1
        ((c3Blocks s1 D e).getD ((0 + p) / BLOCK_SIZE) 0)).getD ((0 + p) % BLOCK_SIZE) 0 =
        D.getD p 0 := hc5 p hp
    rw [Nat.zero_add] at h5'
    exact h5'
  -- assemble
  show (getQueryResponse (head (append s1 f D) f MAX_FILE_SIZE)).1 = D ++ [10]
  rw [happ2]
  rw [head_success_eq {s1 with
      bitmap := (allocBlocks (numAllocBlocks (decodeInode (readBlock s1.disk e.block_num))
        D.length) s1.bitmap).2.1,
      disk := c3Disk s1 D e} f MAX_FILE_SIZE e hdirX hfindX hinoX hszX]
  simp only [getQueryResponse]
  rw [hdec_inode, hif, hresp, hHB, List.nil_append, dropTrailing_append_newline D hlast]

/-- C3 (amended): creating a file, appending data `D` whose last byte is
not a newline, and reading it back with `cat` yields a wire body that is
exactly `D` followed by one newline, provided the name is fresh and short
enough, the directory has room, `0 < |D| ≤ MAX_FILE_SIZE`, and enough
blocks are free for the inode and the data. -/
theorem roundtrip_create_append_cat (s : State) (f D : List Nat) (i0 : Nat)
    (hblen : s.bitmap.length = NUM_BLOCKS) (hdlen : s.disk.length = NUM_BLOCKS)
    (hresp : s.response = [])
    (hcurbit : s.bitmap.getD s.curDir false = true)
    (hdirm : (decodeDir (readBlock s.disk s.curDir)).magic = DIR_MAGIC_NUM)
    (hf0 : 0 ∉ f) (hflen : f.length ≤ MAX_FNAME_SIZE)
    (hnp : findEntry (decodeDir (readBlock s.disk s.curDir)) f = none)
    (hnfull : (decodeDir (readBlock s.disk s.curDir)).num_entries < MAX_DIR_ENTRIES)
    (hslot : (decodeDir (readBlock s.disk s.curDir)).dir_entries.findIdx?
      (fun e => e.block_num == kInvalidHandle) = some i0)
    (hD : 0 < D.length) (hDmax : D.length ≤ MAX_FILE_SIZE)
    (hfree1 : (get_free_block s.bitmap).1 ≠ kInvalidHandle)
    (hfree2 : (allocBlocks ((D.length + (BLOCK_SIZE - 1)) / BLOCK_SIZE)
      (create s f).bitmap).2.2 = true)
    (hlast : D.getLast? ≠ some 10) :
    (getQueryResponse (cat (append (create s f) f D) f)).1 = D ++ [10] := by
  have hfree1' : (get_free_block s.bitmap).1 ≠ 0 := hfree1
  have hins := InsertIntoDirectory_success_eq (decodeDir (readBlock s.disk s.curDir))
    (get_free_block s.bitmap).1 f hnp hnfull hflen hslot
  obtain ⟨dir1, hins', hdir1⟩ :
      ∃ d, InsertIntoDirectory (decodeDir (readBlock s.disk s.curDir))
        (get_free_block s.bitmap).1 f = (d, true, none) ∧
        d = {(decodeDir (readBlock s.disk s.curDir)) with
          num_entries := ((decodeDir (readBlock s.disk s.curDir)).num_entries + 1) % 4294967296,
          dir_entries := (decodeDir (readBlock s.disk s.curDir)).dir_entries.set i0
            ⟨strcpyName ((decodeDir (readBlock s.disk s.curDir)).dir_entries.getD i0
              ⟨[], 0⟩).name f, (get_free_block s.bitmap).1⟩} :=
    ⟨_, hins, rfl⟩
  have hcreate : create s f = {s with
      bitmap := (get_free_block s.bitmap).2,
      disk := writeBlock (writeBlock s.disk (get_free_block s.bitmap).1 initInodeBytes)
        s.curDir (encodeDir dir1)} :=
    MakeBlock_success_eq s initInodeBytes f hfree1 dir1 hins'
  obtain ⟨h2le, hlt, hfreebit, hset⟩ := get_free_block_nonzero hfree1'
  have hltN : (get_free_block s.bitmap).1 < NUM_BLOCKS := hblen ▸ hlt
  have hne1 : (get_free_block s.bitmap).1 ≠ s.curDir := by
    intro heq
    rw [heq, (getD_true_lt s.bitmap s.curDir hcurbit).2] at hfreebit
    simp at hfreebit
  have hcurN : s.curDir < NUM_BLOCKS := by
    have h := (getD_true_lt s.bitmap s.curDir hcurbit).1
    rw [hblen] at h
    exact h
  -- well-formedness of the updated directory block
  have hwf0 : DirWF (decodeDir (readBlock s.disk s.curDir)) :=
    decodeDir_WF _ (readBlock_length _ _)
  have hi0' : i0 < (decodeDir (readBlock s.disk s.curDir)).dir_entries.length :=
    (List.findIdx?_eq_some_iff_findIdx_eq.mp hslot).1
  have he0wf : EntryWF ((decodeDir (readBlock s.disk s.curDir)).dir_entries.getD i0
      ⟨[], 0⟩) := by
    rw [List.getD_eq_getElem _ _ hi0']
    exact hwf0.2.2.2 _ (List.getElem_mem hi0')
  have hwf1 : DirWF dir1 := by
    rw [hdir1]
    obtain ⟨hm0, hn0, hl0, hall0⟩ := hwf0
    refine ⟨hm0, ?_, ?_, ?_⟩
    · show ((decodeDir (readBlock s.disk s.curDir)).num_entries + 1) % 4294967296 < 4294967296
      exact Nat.mod_lt _ (by decide)
    · show ((decodeDir (readBlock s.disk s.curDir)).dir_entries.set i0
        ⟨strcpyName ((decodeDir (readBlock s.disk s.curDir)).dir_entries.getD i0
          ⟨[], 0⟩).name f, (get_free_block s.bitmap).1⟩).length = MAX_DIR_ENTRIES
      rw [List.length_set]
      exact hl0
    · intro e he
      rcases List.mem_or_eq_of_mem_set he with hme | heq
      · exact hall0 e hme
      · rw [heq]
        exact ⟨strcpyName_length _ _ he0wf.1 hflen, Nat.lt_trans hltN (by decide)⟩
  have hmatch : entryMatches ⟨strcpyName ((decodeDir (readBlock s.disk
      s.curDir)).dir_entries.getD i0 ⟨[], 0⟩).name f, (get_free_block s.bitmap).1⟩ f = true := by
    unfold entryMatches
    simp only [Bool.and_eq_true, decide_eq_true_eq]
    exact ⟨hfree1', cname_strcpyName _ _ hf0 hflen⟩
  have hnone : (decodeDir (readBlock s.disk s.curDir)).dir_entries.find?
      (fun e => entryMatches e f) = none := hnp
  -- the state after create
  have hrb1cur : readBlock (create s f).disk (create s f).curDir = encodeDir dir1 := by
    rw [hcreate]
    show readBlock ((s.disk.set (get_free_block s.bitmap).1 initInodeBytes).set s.curDir
      (encodeDir dir1)) s.curDir = encodeDir dir1
    unfold readBlock
    rw [getD_set_self _ _ _ _ (by rw [List.length_set, hdlen]; exact hcurN)]
    exact padTo_eq_self _ _ (encodeDir_length _)
  have hdirm1 : (decodeDir (readBlock (create s f).disk (create s f).curDir)).magic =
      DIR_MAGIC_NUM := by
    rw [hrb1cur, decodeDir_encodeDir dir1 hwf1, hdir1]
    exact hdirm
  have hfind1 : findEntry (decodeDir (readBlock (create s f).disk (create s f).curDir)) f =
      some ⟨strcpyName ((decodeDir (readBlock s.disk s.curDir)).dir_entries.getD i0
        ⟨[], 0⟩).name f, (get_free_block s.bitmap).1⟩ := by
    rw [hrb1cur, decodeDir_encodeDir dir1 hwf1]
    show dir1.dir_entries.find? (fun e => entryMatches e f) = _
    rw [hdir1]
    exact find?_set_of_none _ _ _ _ hnone hi0' hmatch
  have hino1 : decodeInode (readBlock (create s f).disk (get_free_block s.bitmap).1) =
      ⟨INODE_MAGIC_NUM, 0, List.replicate MAX_DATA_BLOCKS 0⟩ := by
    rw [hcreate]
    show decodeInode (readBlock (writeBlock (writeBlock s.disk (get_free_block s.bitmap).1
      initInodeBytes) s.curDir (encodeDir dir1)) (get_free_block s.bitmap).1) = _
    rw [readBlock_writeBlock_ne _ _ _ _ hne1]
    unfold readBlock
    rw [getD_writeBlock_self _ _ _ (by rw [hdlen]; exact hltN)]
    decide
  have hblen1 : (create s f).bitmap.length = NUM_BLOCKS := by
    rw [hcreate]
    show (get_free_block s.bitmap).2.length = NUM_BLOCKS
    rw [hset, List.length_set]
    exact hblen
  have hdlen1 : (create s f).disk.length = NUM_BLOCKS := by
    rw [hcreate]
    show ((s.disk.set (get_free_block s.bitmap).1 initInodeBytes).set s.curDir
      (encodeDir dir1)).length = NUM_BLOCKS
    rw [List.length_set, List.length_set]
    exact hdlen
  have hresp1 : (create s f).response = [] := by
    rw [hcreate]
    exact hresp
  have hcurbit1 : (create s f).bitmap.getD (create s f).curDir false = true := by
    rw [hcreate]
    show (get_free_block s.bitmap).2.getD s.curDir false = true
    rw [hset, getD_set_ne _ _ _ hne1]
    exact hcurbit
  have hebit1 : (create s f).bitmap.getD (get_free_block s.bitmap).1 false = true := by
    rw [hcreate]
    show (get_free_block s.bitmap).2.getD (get_free_block s.bitmap).1 false = true
    rw [hset]
    exact getD_set_self _ _ _ _ hlt
  exact append_cat_empty_file (create s f) f D
    ⟨strcpyName ((decodeDir (readBlock s.disk s.curDir)).dir_entries.getD i0 ⟨[], 0⟩).name f,
      (get_free_block s.bitmap).1⟩
    hblen1 hdlen1 hresp1 hdirm1 hfind1 hino1 hcurbit1 hebit1 hD hDmax hfree2 hlast

/-- Witness for C3 (amended): on a freshly formatted disk, `create "f"`,
`append "f" "hi"`, `cat "f"` yields the wire body `"hi\n"`. -/
theorem roundtrip_create_append_cat_witness :
    (getQueryResponse (cat (append (create formatState [102]) [102] [104, 105]) [102])).1 =
      [104, 105] ++ [10] :=
  roundtrip_create_append_cat formatState [102] [104, 105] 0
    (by decide) (by decide) rfl (by decide) (by decide) (by decide) (by decide)
    (by decide) (by decide) (by decide) (by decide) (by decide) (by decide)
    (by decide) (by decide)

end FS
